import Mathlib

/-!
Shallow embedding of the Confluence→Markdown converter core
(`src/utils/ElementDetector.ts`, `src/utils/TableProcessor.ts`,
`src/utils/BreadcrumbProcessor.ts`, `src/utils/ConfluenceConverter.ts`).

Modelling conventions, used throughout:
* The DOM is the inductive tree `HNode`.  Element nodes carry a numeric
  identity `eid`: the TypeScript code tracks already-rendered elements in a
  `WeakSet`/`Set` keyed by object reference, and two distinct nodes of a
  parsed document are distinct references, which the model expresses as
  distinct `eid`s.  A `ProcessedSet` is therefore a `List Nat` of `eid`s.
* Tag names are stored lowercase (the canonical form of an HTML parse);
  source checks against `tagName === 'BR'` (DOM tag names are uppercase for
  HTML elements) are translated to lowercase comparisons.
* `id` and `class` are split out of the attribute list, mirroring
  `element.id` / `element.classList`; all other attributes live in `attrs`
  (first binding wins, as `getAttribute` returns the single value).
* String-level JavaScript operations (`replace` with the concrete regexes of
  the source, `split`, `trim`, `toLowerCase`) are re-implemented as fuelled
  structural recursions over `List Char` so that every definition evaluates
  inside the kernel; each fuelled function is called with fuel strictly
  larger than the input length, which the scanning step (always consuming at
  least one character) never exhausts.
-/

/-- HTML node: a text node, or an element with identity, tag, id attribute,
class list, other attributes and children. -/
inductive HNode where
  | text (s : String)
  | elem (eid : Nat) (tag : String) (idAttr : String) (classes : List String)
      (attrs : List (String × String)) (children : List HNode)

/-- Whitespace as JavaScript's `\s` / `trim` see it (ASCII part). -/
def isJsSpace (c : Char) : Bool :=
  c = ' ' || c = '\t' || c = '\n' || c = '\r' || c = '\x0b' || c = '\x0c'

/-- JavaScript `String.prototype.trim()`. -/
def jsTrim (s : String) : String :=
  ⟨((s.toList.dropWhile isJsSpace).reverse.dropWhile isJsSpace).reverse⟩

/-- JavaScript `String.prototype.toLowerCase()` (ASCII letters). -/
def jsToLower (s : String) : String :=
  ⟨s.toList.map Char.toLower⟩

/-- JavaScript `String.prototype.toUpperCase()` (ASCII letters). -/
def jsToUpper (s : String) : String :=
  ⟨s.toList.map Char.toUpper⟩

/-- Global replacement of a literal (non-empty) pattern, as
`s.replace(/pat/g, rep)`: leftmost match, continue after the match. -/
def replSubAux (pat rep : List Char) : Nat → List Char → List Char
  | _, [] => []
  | 0, l => l
  | fuel + 1, c :: rest =>
    if pat ≠ [] && pat.isPrefixOf (c :: rest) then
      rep ++ replSubAux pat rep fuel (List.drop pat.length (c :: rest))
    else
      c :: replSubAux pat rep fuel rest

/-- String wrapper for `replSubAux`. -/
def jsReplaceAll (s pat rep : String) : String :=
  ⟨replSubAux pat.toList rep.toList (s.toList.length + 1) s.toList⟩

/-- Splitting on a literal non-empty separator, as JavaScript
`s.split(sep)`. -/
def splitSubAux (sep : List Char) : Nat → List Char → List Char → List (List Char)
  | _, acc, [] => [acc.reverse]
  | 0, acc, l => [acc.reverse ++ l]
  | fuel + 1, acc, c :: rest =>
    if sep.isPrefixOf (c :: rest) then
      acc.reverse :: splitSubAux sep fuel [] (List.drop sep.length (c :: rest))
    else
      splitSubAux sep fuel (c :: acc) rest

/-- String wrapper for `splitSubAux`. -/
def jsSplit (s sep : String) : List String :=
  (splitSubAux sep.toList (s.toList.length + 1) [] s.toList).map fun l => (⟨l⟩ : String)

/-- Containment of a literal substring, as JavaScript `includes`. -/
def jsIncludes (s pat : String) : Bool :=
  s.toList.tails.any fun t => pat.toList.isPrefixOf t

/-- Count of occurrences of a literal pattern; `s.split(pat).length > 2`
in the source is `jsCountSub s pat ≥ 2`. -/
def jsCountSub (s pat : String) : Nat :=
  (jsSplit s pat).length - 1

/-- JavaScript `startsWith` for the model. -/
def jsStartsWith (s pat : String) : Bool :=
  pat.toList.isPrefixOf s.toList

/-- Accessors of the node model. -/
def HNode.isElem : HNode → Bool
  | .text _ => false
  | .elem _ _ _ _ _ _ => true

/-- Tag of an element (empty for a text node). -/
def HNode.tag : HNode → String
  | .text _ => ""
  | .elem _ t _ _ _ _ => t

/-- Identity of an element (text nodes are never tracked). -/
def HNode.eid : HNode → Nat
  | .text _ => 0
  | .elem e _ _ _ _ _ => e

/-- Value of the `id` attribute, `element.id` (empty when absent). -/
def HNode.idAttr : HNode → String
  | .text _ => ""
  | .elem _ _ i _ _ _ => i

/-- Class list of an element, `element.classList`. -/
def HNode.classes : HNode → List String
  | .text _ => []
  | .elem _ _ _ c _ _ => c

/-- Attribute list of an element (without `id`/`class`). -/
def HNode.attrs : HNode → List (String × String)
  | .text _ => []
  | .elem _ _ _ _ a _ => a

/-- Child nodes, `element.childNodes`. -/
def HNode.children : HNode → List HNode
  | .text _ => []
  | .elem _ _ _ _ _ cs => cs

/-- Attribute lookup, `element.getAttribute(name)`; `none` is DOM `null`. -/
def HNode.getAttr (n : HNode) (name : String) : Option String :=
  n.attrs.lookup name

mutual

/-- Self plus all descendants, preorder (document order). -/
def HNode.allNodes : HNode → List HNode
  | .text s => [.text s]
  | .elem e t i c a cs => .elem e t i c a cs :: HNode.allNodesList cs

/-- List version of `HNode.allNodes`. -/
def HNode.allNodesList : List HNode → List HNode
  | [] => []
  | n :: ns => n.allNodes ++ HNode.allNodesList ns

end

/-- Descendant nodes of a node (document order, self excluded): the search
space of `element.querySelectorAll`. -/
def HNode.descNodes (n : HNode) : List HNode :=
  HNode.allNodesList n.children

/-- Concatenated text of all text descendants, `node.textContent`. -/
def HNode.textContent (n : HNode) : String :=
  String.join (n.allNodes.filterMap fun m =>
    match m with
    | .text s => some s
    | _ => none)

/-- Descendant elements matching a predicate, in document order:
`element.querySelectorAll(sel)` for the simple (non-combinator) selectors of
the source. -/
def qsa (p : HNode → Bool) (n : HNode) : List HNode :=
  n.descNodes.filter fun m => m.isElem && p m

/-- First descendant element matching a predicate,
`element.querySelector(sel)`. -/
def qsFirst (p : HNode → Bool) (n : HNode) : Option HNode :=
  (qsa p n).head?

/-- Inline `style` attribute parsed into properties:
`element.style.getPropertyValue` for the two properties the source reads. -/
def styleProp (n : HNode) (prop : String) : String :=
  match n.getAttr "style" with
  | none => ""
  | some s =>
    let entries := (jsSplit s ";").filterMap fun e =>
      match jsSplit e ":" with
      | [k, v] => some (jsTrim k, jsTrim v)
      | _ => none
    (entries.lookup (jsTrim prop)).getD ""

/-!
Contextual descendant collection: the document-order list of descendant
elements `el` of the scope for which `sel st seen el` holds, where `st` is a
state accumulated along the ancestor path by `upd` and `seen` says whether an
earlier element sibling exists (for `:not(:first-child)`).  This models the
descendant-combinator selectors of the source, with ancestors looked up
inside the scope element.
-/

mutual

/-- Matches contributed by one node of `collectCtx`: the node itself when
selected, then its subtree with the ancestor state updated by the node. -/
def collectCtxNode {σ : Type} (upd : σ → HNode → σ) (sel : σ → Bool → HNode → Bool)
    (st : σ) (seen : Bool) : HNode → List HNode
  | .text _ => []
  | .elem e t i c a cs =>
    (if sel st seen (.elem e t i c a cs) then [HNode.elem e t i c a cs] else []) ++
      collectCtx upd sel (upd st (.elem e t i c a cs)) false cs

/-- List part of the contextual collection; `seen` becomes true once an
element sibling has been passed. -/
def collectCtx {σ : Type} (upd : σ → HNode → σ) (sel : σ → Bool → HNode → Bool)
    (st : σ) : Bool → List HNode → List HNode
  | _, [] => []
  | seen, n :: rest =>
    collectCtxNode upd sel st seen n ++ collectCtx upd sel st (seen || n.isElem) rest

end

/-- Entry point of `collectCtx` on the children of a scope node. -/
def collectFrom {σ : Type} (upd : σ → HNode → σ) (sel : σ → Bool → HNode → Bool)
    (st : σ) (scope : HNode) : List HNode :=
  collectCtx upd sel st false scope.children

/-! HTML serialization (`element.innerHTML`), needed by the complex-cell
predicate and the complex-table renderer.  Text is entity-escaped the way a
browser serializes it; attributes are emitted as `id`, `class`, then the
remaining attributes in stored order. -/

/-- Entity escaping of serialized text content. -/
def escHtmlText (s : String) : String :=
  ⟨s.toList.flatMap fun c =>
    if c = '&' then "&amp;".toList
    else if c = '<' then "&lt;".toList
    else if c = '>' then "&gt;".toList
    else [c]⟩

/-- Entity escaping of serialized attribute values. -/
def escHtmlAttr (s : String) : String :=
  ⟨s.toList.flatMap fun c =>
    if c = '&' then "&amp;".toList
    else if c = '"' then "&quot;".toList
    else [c]⟩

/-- Void elements serialize without a closing tag. -/
def isVoidTag (t : String) : Bool :=
  ["area", "base", "br", "col", "embed", "hr", "img", "input", "link", "meta",
    "param", "source", "track", "wbr"].contains t

/-- Serialized attribute text of an element. -/
def attrsText (idAttr : String) (classes : List String)
    (attrs : List (String × String)) : String :=
  (if idAttr ≠ "" then " id=\"" ++ escHtmlAttr idAttr ++ "\"" else "") ++
    (if classes ≠ [] then
      " class=\"" ++ escHtmlAttr (String.intercalate " " classes) ++ "\"" else "") ++
    String.join (attrs.map fun kv => " " ++ kv.1 ++ "=\"" ++ escHtmlAttr kv.2 ++ "\"")

mutual

/-- Serialization of one node. -/
def HNode.outerHTML : HNode → String
  | .text s => escHtmlText s
  | .elem _ t i c a cs =>
    "<" ++ t ++ attrsText i c a ++ ">" ++
      (if isVoidTag t then "" else HNode.innerHTMLList cs ++ "</" ++ t ++ ">")

/-- Serialization of a node list. -/
def HNode.innerHTMLList : List HNode → String
  | [] => ""
  | n :: ns => n.outerHTML ++ HNode.innerHTMLList ns

end

/-- Serialized children, `element.innerHTML`. -/
def HNode.innerHTML (n : HNode) : String :=
  HNode.innerHTMLList n.children

/-! ElementDetector (`src/utils/ElementDetector.ts`). -/

/-- Rows of a table, `table.rows`: direct `tr` children plus `tr` children of
`thead`/`tbody`/`tfoot` children, in tree order. -/
def tableRows (t : HNode) : List HNode :=
  t.children.flatMap fun c =>
    if c.tag = "tr" then [c]
    else if c.tag = "thead" || c.tag = "tbody" || c.tag = "tfoot" then
      c.children.filter fun r => r.tag = "tr"
    else []

/-- Cells of a row, `row.cells`: direct `td`/`th` children. -/
def rowCells (r : HNode) : List HNode :=
  r.children.filter fun c => c.tag = "td" || c.tag = "th"

/-- Header cells of a table per `table.querySelectorAll('th, thead td')`:
descendant `th` elements plus descendant `td` elements lying under a
`thead`, in document order. -/
def headerCells (t : HNode) : List HNode :=
  collectFrom (fun st el => st || el.tag = "thead")
    (fun st _ el => el.tag = "th" || (el.tag = "td" && st)) false t

/-- ElementDetector.isLayoutTable, with `anc` the ancestor chain of the
table (nearest first) for the `closest` lookup. -/
def isLayoutTable (anc : List HNode) (t : HNode) : Bool :=
  if t.tag ≠ "table" then false
  else if t.classes.contains "layout" || t.classes.contains "contentLayoutTable"
      || t.classes.contains "layout-table" then true
  else if ((t :: anc).any fun e =>
        e.classes.contains "contentLayout2" || e.classes.contains "columnLayout"
          || e.classes.contains "section" || e.classes.contains "panelContent") &&
      (match t.getAttr "border" with
        | some "0" => true
        | some "" => styleProp t "border-style" = "none"
        | some _ => false
        | none => styleProp t "border-style" = "none") then true
  else if (tableRows t).length = 1 &&
      (match tableRows t with
        | [r] => (rowCells r).length = 1 &&
            (match rowCells r with
              | [c] => (qsFirst (fun d => d.tag = "div" || d.tag = "table" ||
                  d.tag = "ul" || d.tag = "ol" || d.tag = "p") c).isSome
              | _ => false)
        | _ => false) then true
  else if t.classes.contains "wysiwyg-macro" then true
  else false

/-- ElementDetector.isHistoryTable, with `anc` the `parentElement` chain
(nearest first). -/
def isHistoryTable (anc : List HNode) (t : HNode) : Bool :=
  if t.idAttr = "page-history-container" || t.classes.contains "tableview" then true
  else
    let headers := (headerCells t).map fun h => jsToLower (jsTrim h.textContent)
    if (headers.contains "version" || headers.contains "v.") &&
        (headers.contains "changed by" || headers.contains "published") then true
    else anc.any fun p =>
      (p.idAttr ≠ "" && (jsIncludes p.idAttr "history" || jsIncludes p.idAttr "version")) ||
        p.classes.contains "history" || p.classes.contains "expand-content"

/-- ElementDetector.isComplexTableCell. -/
def isComplexTableCell (cell : HNode) : Bool :=
  if (qsFirst (fun d => d.tag = "h1" || d.tag = "h2" || d.tag = "h3" || d.tag = "h4"
      || d.tag = "h5" || d.tag = "h6" || d.tag = "img" || d.tag = "ul" || d.tag = "ol"
      || d.tag = "table" || d.classes.contains "panel"
      || d.classes.contains "confluence-information-macro") cell).isSome then true
  else if (qsa (fun d => d.tag = "p") cell).length > 1 then true
  else if cell.innerHTML ≠ "" && jsIncludes cell.innerHTML "<br" &&
      (jsSplit cell.innerHTML "<br").length > 2 then true
  else if (jsTrim cell.textContent).length > 100 then true
  else false

/-- ElementDetector.isComplexTable. -/
def isComplexTable (t : HNode) : Bool :=
  (qsa (fun c => c.tag = "td" || c.tag = "th") t).any isComplexTableCell

/-- ElementDetector.isPanel. -/
def isPanel (el : HNode) : Bool :=
  el.classes.contains "panel" || el.classes.contains "confluence-information-macro"
    || el.classes.contains "aui-message" || el.classes.contains "admonition"
    || el.classes.contains "expand-container" || (el.getAttr "data-macro-name").isSome

/-- ElementDetector.getPanelType (a present but empty `data-macro-name` is
falsy in the source and falls through to the class checks). -/
def getPanelType (el : HNode) : String :=
  let macroName := (el.getAttr "data-macro-name").getD ""
  if macroName ≠ "" then macroName
  else if el.classes.contains "note" ||
      el.classes.contains "confluence-information-macro-note" then "note"
  else if el.classes.contains "warning" ||
      el.classes.contains "confluence-information-macro-warning" then "warning"
  else if el.classes.contains "tip" ||
      el.classes.contains "confluence-information-macro-tip" then "tip"
  else if el.classes.contains "code" ||
      el.classes.contains "confluence-information-macro-code" then "code"
  else "info"

/-- ElementDetector.shouldBeIgnored (a text node has no `tagName` and is
ignored by the first guard; DOM upper-case tag comparisons are lowercase
here). -/
def shouldBeIgnored (el : HNode) : Bool :=
  if el.tag = "" then true
  else if el.tag = "script" || el.tag = "style" || el.tag = "noscript"
      || el.tag = "button" then true
  else if el.getAttr "aria-hidden" = some "true" then true
  else if styleProp el "display" = "none" || styleProp el "visibility" = "hidden" then true
  else if ["breadcrumb-section", "footer", "aui-nav", "pageSectionHeader",
      "hidden", "navigation", "screenreader-only", "hidden-xs",
      "hidden-sm", "aui-icon", "aui-avatar-inner", "expand-control"].any
      (fun cls => el.classes.contains cls) then true
  else if el.idAttr ≠ "" && ["breadcrumbs", "footer", "navigation", "sidebar",
      "page-sidebar", "header", "actions", "likes-and-labels-container",
      "page-metadata-secondary"].contains el.idAttr then true
  else false

/-! TableProcessor (`src/utils/TableProcessor.ts`, the `WeakSet`-based class).
A `ProcessedSet` is the list of `eid`s already rendered. -/

/-- Membership in the processed set, `this.processedElements.has(el)`. -/
def psHas (s : List Nat) (n : HNode) : Bool :=
  s.contains n.eid

/-- Insertion into the processed set, `this.processedElements.add(el)`. -/
def psAdd (s : List Nat) (n : HNode) : List Nat :=
  n.eid :: s

/-- Heading level from a tag name, the source's `tagName.match(/^H[1-6]$/)`
plus `parseInt(tagName.substring(1))`. -/
def headingLevel (t : String) : Option Nat :=
  if t = "h1" then some 1 else if t = "h2" then some 2 else if t = "h3" then some 3
  else if t = "h4" then some 4 else if t = "h5" then some 5
  else if t = "h6" then some 6 else none

/-- Shared child-node walk of the layout-cell, panel-body and expand-body
builders (the three copies in the source are identical): text nodes are
appended raw, ignored elements skipped, `br` is a newline, `p` and headings
are blank-line-terminated blocks, anything else is trimmed text on its own
line.  `skip` holds the `eid` of a title element to leave out (the
`child === titleElement` reference comparison of `processPanel`). -/
def blockContentSkip (skip : Option Nat) : List HNode → String
  | [] => ""
  | .text s :: rest => s ++ blockContentSkip skip rest
  | .elem e t i c a cs :: rest =>
    let el := HNode.elem e t i c a cs
    let tail := blockContentSkip skip rest
    if skip = some e then tail
    else if shouldBeIgnored el then tail
    else if t = "br" then "\n" ++ tail
    else
      match headingLevel t with
      | some lvl => ⟨List.replicate lvl '#'⟩ ++ " " ++ jsTrim el.textContent ++ "\n\n" ++ tail
      | none =>
        if t = "p" then jsTrim el.textContent ++ "\n\n" ++ tail
        else jsTrim el.textContent ++ "\n" ++ tail

/-- Block-content walk without a skipped title. -/
def blockContent (cs : List HNode) : String :=
  blockContentSkip none cs

/-- Rows targeted by `table.querySelectorAll('tbody tr, tr:not(:first-child)')`:
descendant `tr` elements under a `tbody`, or with an earlier element
sibling. -/
def historyRows (t : HNode) : List HNode :=
  collectFrom (fun st el => st || el.tag = "tbody")
    (fun st seen el => el.tag = "tr" && (st || seen)) false t

/-- Newline collapsing and pipe escaping of a history cell,
`.replace(/\n/g, ' ').replace(/\|/g, '\\|')`. -/
def nlPipeEsc (s : String) : String :=
  jsReplaceAll (jsReplaceAll s "\n" " ") "|" "\\|"

/-- First descendant matching
`'.page-history-contributor-name a, .page-history-contributor-name span'`. -/
def contributorName (cell : HNode) : Option HNode :=
  (collectFrom (fun st el => st || el.classes.contains "page-history-contributor-name")
    (fun st _ el => (el.tag = "a" || el.tag = "span") && st) false cell).head?

/-- Changed-by column of a history row: optional avatar image fragment, then
a linked or plain user name, else the escaped cell text. -/
def changedByText (c2 : HNode) : String :=
  (match qsFirst (fun d => d.tag = "img" && d.classes.contains "userLogo") c2 with
    | some icon =>
      let alt := (icon.getAttr "alt").getD ""
      "![" ++ (if alt ≠ "" then alt else "User") ++ "](" ++
        ((icon.getAttr "src").getD "") ++ ") "
    | none => "") ++
  (match contributorName c2 with
    | some un =>
      if un.tag = "a" then
        "[" ++ jsTrim un.textContent ++ "](" ++ ((un.getAttr "href").getD "") ++ ")"
      else jsTrim un.textContent
    | none => nlPipeEsc (jsTrim c2.textContent))

/-- Body of one iteration of the history-row loop: a skipped row emits
nothing and leaves the set, a row with fewer than three `td` descendants is
added to the set but emits nothing, any other row emits its 4-column line. -/
def historyStep (s : List Nat) (r : HNode) : Option String × List Nat :=
  if psHas s r then (none, s)
  else
    let s1 := psAdd s r
    let cells := qsa (fun d => d.tag = "td") r
    match cells with
    | c0 :: c1 :: c2 :: restCells =>
      let versionText0 := jsTrim c0.textContent
      let versionText :=
        match qsFirst (fun d => d.tag = "a") c0 with
        | some link =>
          let lt := jsTrim link.textContent
          "[" ++ (if lt ≠ "" then lt else versionText0) ++ "](" ++
            ((link.getAttr "href").getD "") ++ ")"
        | none => nlPipeEsc versionText0
      let publishedText := nlPipeEsc (jsTrim c1.textContent)
      let commentText := nlPipeEsc
        (match restCells with
          | c3 :: _ => jsTrim c3.textContent
          | [] => "")
      (some ("| " ++ versionText ++ " | " ++ publishedText ++ " | " ++
        changedByText c2 ++ " | " ++ commentText ++ " |\n"), s1)
    | _ => (none, s1)

/-- Fold of `historyStep` over the rows, concatenating emitted lines. -/
def historyRowsFold : List Nat → List HNode → String × List Nat
  | s, [] => ("", s)
  | s, r :: rs =>
    let (o, s1) := historyStep s r
    let (md, s2) := historyRowsFold s1 rs
    ((o.getD "") ++ md, s2)

/-- TableProcessor.processHistoryTable. -/
def processHistoryTable (s : List Nat) (t : HNode) : String × List Nat :=
  let hdr := "\n### Page History\n\n" ++
    "| Version | Published | Changed By | Comment |\n" ++ "|---|---|---|---|\n"
  let (body, s') := historyRowsFold s (historyRows t)
  (hdr ++ body ++ "\n", s')

/-- Cell loop of TableProcessor.processLayoutTable. -/
def layoutCellsFold : List Nat → List HNode → String × List Nat
  | s, [] => ("", s)
  | s, c :: cs =>
    if psHas s c then layoutCellsFold s cs
    else
      let s1 := psAdd s c
      let content := blockContent c.children
      let part := if jsTrim content ≠ "" then jsTrim content ++ "\n\n" else ""
      let (md, s2) := layoutCellsFold s1 cs
      (part ++ md, s2)

/-- Row loop of TableProcessor.processLayoutTable. -/
def layoutRowsFold : List Nat → List HNode → String × List Nat
  | s, [] => ("", s)
  | s, r :: rs =>
    if psHas s r then layoutRowsFold s rs
    else
      let s1 := psAdd s r
      let (md1, s2) := layoutCellsFold s1 (rowCells r)
      let (md2, s3) := layoutRowsFold s2 rs
      (md1 ++ md2, s3)

/-- TableProcessor.processLayoutTable. -/
def processLayoutTable (s : List Nat) (t : HNode) : String × List Nat :=
  layoutRowsFold s (tableRows t)

/-- Lazy `<p>(.*?)</p>` closer search: the characters up to the nearest
`</p>` on the same line, and the remainder after it. -/
def findPClose : List Char → Option (List Char × List Char)
  | [] => none
  | c :: rest =>
    if "</p>".toList.isPrefixOf (c :: rest) then
      some ([], List.drop 4 (c :: rest))
    else if c = '\n' then none
    else (findPClose rest).map fun pr => (c :: pr.1, pr.2)

/-- Replacement `/​<p>(.*?)<\/p>/gi` → `$1\n\n` (the dot does not cross
newlines and the tags carry no attributes in the pattern). -/
def unwrapPAux : Nat → List Char → List Char
  | _, [] => []
  | 0, l => l
  | fuel + 1, c :: rest =>
    if "<p>".toList.isPrefixOf (c :: rest) then
      match findPClose (List.drop 3 (c :: rest)) with
      | some (inner, after) => inner ++ '\n' :: '\n' :: unwrapPAux fuel after
      | none => c :: unwrapPAux fuel rest
    else c :: unwrapPAux fuel rest

/-- Replacement `/<\/?[^>]+(>|$)/g` → `''`: tags are stripped, a lone `<`
with nothing before the next `>` stays. -/
def stripTagsAux : Nat → List Char → List Char
  | _, [] => []
  | 0, l => l
  | fuel + 1, c :: rest =>
    if c = '<' then
      let run := rest.takeWhile fun d => d ≠ '>'
      if run ≠ [] then stripTagsAux fuel (List.drop (run.length + 1) rest)
      else c :: stripTagsAux fuel rest
    else c :: stripTagsAux fuel rest

/-- Content transform of a complex-table cell:
`innerHTML.replace(/<br\s*\/?>/gi, '\n').replace(/<p>(.*?)<\/p>/gi, '$1\n\n').replace(/<\/?[^>]+(>|$)/g, '')`
(the serializer emits exactly `<br>` for an attributeless `br`). -/
def complexCellContent (c : HNode) : String :=
  let s1 := jsReplaceAll c.innerHTML "<br>" "\n"
  let s2 : String := ⟨unwrapPAux (s1.toList.length + 1) s1.toList⟩
  ⟨stripTagsAux (s2.toList.length + 1) s2.toList⟩

/-- Trailing-cell loop of TableProcessor.processComplexTable. -/
def complexCellsFold : List Nat → List HNode → String × List Nat
  | s, [] => ("", s)
  | s, c :: cs =>
    if psHas s c then complexCellsFold s cs
    else
      let s1 := psAdd s c
      let content := complexCellContent c
      let part := if jsTrim content ≠ "" then jsTrim content ++ "\n\n" else ""
      let (md, s2) := complexCellsFold s1 cs
      (part ++ md, s2)

/-- Row loop of TableProcessor.processComplexTable: first cell becomes a
level-2 heading, the remaining cells follow as content blocks. -/
def complexRowsFold : List Nat → List HNode → String × List Nat
  | s, [] => ("", s)
  | s, r :: rs =>
    if psHas s r then complexRowsFold s rs
    else
      let s1 := psAdd s r
      match rowCells r with
      | [] => complexRowsFold s1 rs
      | c0 :: restCells =>
        let sectionTitle := jsTrim c0.textContent
        let head := if sectionTitle ≠ "" then "## " ++ sectionTitle ++ "\n\n" else ""
        let (md1, s2) := complexCellsFold s1 restCells
        let (md2, s3) := complexRowsFold s2 rs
        (head ++ md1 ++ md2, s3)

/-- TableProcessor.processComplexTable. -/
def processComplexTable (s : List Nat) (t : HNode) : String × List Nat :=
  let (body, s') := complexRowsFold s (tableRows t)
  ("\n" ++ body, s')

/-- Cell text of the GitHub-style renderer: trimmed text, bold/italic
wrapping when the cell holds a `strong`/`b` or `em`/`i` descendant, pipes
escaped. -/
def githubCellContent (cell : HNode) : String :=
  let content := jsTrim cell.textContent
  let content :=
    if (qsFirst (fun d => d.tag = "strong" || d.tag = "b") cell).isSome then
      "**" ++ content ++ "**"
    else if (qsFirst (fun d => d.tag = "em" || d.tag = "i") cell).isSome then
      "*" ++ content ++ "*"
    else content
  jsReplaceAll content "|" "\\|"

/-- Row line of the GitHub-style renderer: one slot per column up to
`maxCells`, existing cells rendered, missing ones padded as ` |`. -/
def githubRowLine (maxCells : Nat) (cells : List HNode) : String :=
  "|" ++ String.join ((List.range maxCells).map fun i =>
    match cells.get? i with
    | some c => " " ++ githubCellContent c ++ " |"
    | none => " |")

/-- Separator row of the GitHub-style renderer,
`'|' + Array(maxCells).fill('---').join('|') + '|'`. -/
def githubSepLine (maxCells : Nat) : String :=
  "|" ++ String.intercalate "|" (List.replicate maxCells "---") ++ "|\n"

/-- Row loop of TableProcessor.processGithubTable: each row yields `none`
when skipped as already processed, otherwise its line and whether it is a
header row (`rowIndex === 0 || row.querySelector('th') !== null`), after
which a separator row is appended. -/
def githubRowsFold (maxCells : Nat) : List Nat → Nat → List HNode →
    List (Option (String × Bool)) × List Nat
  | s, _, [] => ([], s)
  | s, idx, r :: rs =>
    if psHas s r then
      let (outs, s') := githubRowsFold maxCells s (idx + 1) rs
      (none :: outs, s')
    else
      let s1 := psAdd s r
      let cells := rowCells r
      let isHeader := idx = 0 || (qsFirst (fun d => d.tag = "th") r).isSome
      let s2 := cells.foldl psAdd s1
      let (outs, s') := githubRowsFold maxCells s2 (idx + 1) rs
      (some (githubRowLine maxCells cells, isHeader) :: outs, s')

/-- Column count of the GitHub-style renderer,
`Math.max(...rows.map(row => row.cells.length))`. -/
def githubMaxCells (rows : List HNode) : Nat :=
  (rows.map fun r => (rowCells r).length).foldr max 0

/-- TableProcessor.processGithubTable. -/
def processGithubTable (s : List Nat) (t : HNode) : String × List Nat :=
  let rows := tableRows t
  if rows.length = 0 then ("", s)
  else
    let maxCells := githubMaxCells rows
    if maxCells = 0 then ("", s)
    else
      let (outs, s') := githubRowsFold maxCells s 0 rows
      ("\n" ++ String.join (outs.map fun o =>
        match o with
        | none => ""
        | some lineHdr =>
          lineHdr.1 ++ "\n" ++ (if lineHdr.2 then githubSepLine maxCells else "")) ++
        "\n", s')

/-- Outcome of the dispatch in TableProcessor.processTable: the four
predicates tried in source order, first match wins. -/
inductive TableKind where
  | history
  | layout
  | complex
  | standard
deriving DecidableEq

/-- Classification implicit in TableProcessor.processTable (lines 36-49):
History, then Layout, then Complex, else Standard. -/
def classifyTable (anc : List HNode) (t : HNode) : TableKind :=
  if isHistoryTable anc t then .history
  else if isLayoutTable anc t then .layout
  else if isComplexTable t then .complex
  else .standard

/-- TableProcessor.processTable: skip when already processed, record the
element, bail out when it is not a `table` element, then dispatch on the
classification. -/
def processTable (anc : List HNode) (s : List Nat) (t : HNode) : String × List Nat :=
  if psHas s t then ("", s)
  else
    let s1 := psAdd s t
    if t.tag ≠ "table" then ("", s1)
    else
      match classifyTable anc t with
      | .history => processHistoryTable s1 t
      | .layout => processLayoutTable s1 t
      | .complex => processComplexTable s1 t
      | .standard => processGithubTable s1 t

/-! PanelProcessor (the `Set`-based class bundled with
`src/utils/ElementDetector.ts`). -/

/-- Panel style choice, the `panelStyle` configuration axis (`'section'` is a
Lean keyword, hence `sect`). -/
inductive PanelStyleKind where
  | blockquote
  | div
  | sect
deriving DecidableEq

/-- Formatters of the `panelStyles` configuration object: an absent title
falls back to the upper-cased panel type. -/
def panelStyles (style : PanelStyleKind) (title content ptype : String) : String :=
  let formattedTitle := if title ≠ "" then title else jsToUpper ptype
  match style with
  | .blockquote =>
    "> **" ++ formattedTitle ++ "**\n> " ++ jsReplaceAll content "\n" "\n> " ++ "\n\n"
  | .div =>
    "<div class=\"panel " ++ ptype ++ "\">\n<h3>" ++ formattedTitle ++ "</h3>\n" ++
      content ++ "\n</div>\n\n"
  | .sect => "## " ++ formattedTitle ++ "\n\n" ++ content ++ "\n\n"

/-- PanelProcessor.processPanel. -/
def processPanel (style : PanelStyleKind) (s : List Nat) (panel : HNode) :
    String × List Nat :=
  if psHas s panel then ("", s)
  else
    let s1 := psAdd s panel
    let panelType := getPanelType panel
    let titleEl := qsFirst (fun d => d.classes.contains "panelHeader"
      || d.classes.contains "panel-header" || d.classes.contains "aui-message-header") panel
    let title := match titleEl with
      | some te => jsTrim te.textContent
      | none => ""
    match qsFirst (fun d => d.classes.contains "panelContent"
      || d.classes.contains "panel-body" || d.classes.contains "aui-message-content") panel with
    | some contentEl =>
      let s2 := psAdd s1 contentEl
      (panelStyles style title (jsTrim (blockContent contentEl.children)) panelType, s2)
    | none =>
      (panelStyles style title
        (jsTrim (blockContentSkip (titleEl.map HNode.eid) panel.children)) panelType, s1)

/-- PanelProcessor.processExpandMacro. -/
def processExpandMacro (s : List Nat) (el : HNode) : String × List Nat :=
  if psHas s el then ("", s)
  else
    let s1 := psAdd s el
    let title := match qsFirst (fun d => d.classes.contains "expand-control-text") el with
      | some te => let t := jsTrim te.textContent; if t ≠ "" then t else "Details"
      | none => "Details"
    let contentState : String × List Nat :=
      match qsFirst (fun d => d.classes.contains "expand-content") el with
      | some ce => (blockContent ce.children, psAdd s1 ce)
      | none => ("", s1)
    ("<details>\n<summary>" ++ title ++ "</summary>\n\n" ++ jsTrim contentState.1 ++
      "\n</details>\n\n", contentState.2)

/-- Language token of `data-macro-parameters`, the source's
`match(/language=([a-zA-Z0-9]+)/)`: first `language=` that is followed by at
least one alphanumeric character. -/
def extractLanguageAux : Nat → List Char → String
  | _, [] => ""
  | 0, _ => ""
  | fuel + 1, c :: rest =>
    if "language=".toList.isPrefixOf (c :: rest) then
      let run := (List.drop 9 (c :: rest)).takeWhile fun d => d.isAlpha || d.isDigit
      if run ≠ [] then (⟨run⟩ : String) else extractLanguageAux fuel rest
    else extractLanguageAux fuel rest

/-- Code block style choice. -/
inductive CodeStyleKind where
  | fenced
  | indented
deriving DecidableEq

/-- PanelProcessor.processCodeMacro (an empty `data-macro-parameters` is
falsy and yields no language). -/
def processCodeMacro (codeStyle : CodeStyleKind) (s : List Nat) (el : HNode) :
    String × List Nat :=
  if psHas s el then ("", s)
  else
    let s1 := psAdd s el
    let language := match el.getAttr "data-macro-parameters" with
      | some p => extractLanguageAux (p.toList.length + 1) p.toList
      | none => ""
    let codeContent := jsTrim el.textContent
    match codeStyle with
    | .fenced => ("```" ++ language ++ "\n" ++ codeContent ++ "\n```\n\n", s1)
    | .indented =>
      (String.intercalate "\n" ((jsSplit codeContent "\n").map fun line =>
        "    " ++ line) ++ "\n\n", s1)

/-- PanelProcessor.processTocMacro. -/
def processTocMacro (s : List Nat) (el : HNode) : String × List Nat :=
  if psHas s el then ("", s)
  else ("## Table of Contents\n\n[TOC]\n\n", psAdd s el)

/-- PanelProcessor.processJiraMacro. -/
def processJiraMacro (s : List Nat) (el : HNode) : String × List Nat :=
  if psHas s el then ("", s)
  else
    let s1 := psAdd s el
    let issueLinks := qsa (fun d => d.tag = "a" &&
      jsIncludes ((d.getAttr "href").getD "") "/browse/") el
    let body := if issueLinks.length > 0 then
        String.join (issueLinks.map fun link =>
          let k := jsTrim link.textContent
          let issueKey := if k ≠ "" then k else "Jira Issue"
          let issueUrl := match link.getAttr "href" with
            | some h => if h ≠ "" then h else "#"
            | none => "#"
          "* [" ++ issueKey ++ "](" ++ issueUrl ++ ")\n")
      else "* (Jira macro content - further parsing might be needed)\n"
    ("\n**Jira Issues:**\n" ++ body ++ "\n", s1)

/-- PanelProcessor.processStatusMacro. -/
def processStatusMacro (style : PanelStyleKind) (s : List Nat) (el : HNode) :
    String × List Nat :=
  if psHas s el then ("", s)
  else
    let s1 := psAdd s el
    let statusText := jsTrim el.textContent
    let color := (el.getAttr "data-color").getD ""
    if style = .div then
      ("<span class=\"status-macro" ++ (if color ≠ "" then " " ++ color else "") ++
        "\">" ++ statusText ++ "</span>", s1)
    else ("[" ++ statusText ++ "]", s1)

/-! Shared types (`src/utils/types.ts`). -/

/-- Table style choice. -/
inductive TableStyleKind where
  | github
  | simple
  | html
deriving DecidableEq

/-- Image style choice. -/
inductive ImageStyleKind where
  | markdown
  | html
deriving DecidableEq

/-- Link style choice. -/
inductive LinkStyleKind where
  | markdown
  | html
deriving DecidableEq

/-- Heading style choice. -/
inductive HeadingStyleKind where
  | atx
  | setext
deriving DecidableEq

/-- Macro handling choice. -/
inductive MacroHandlingKind where
  | convert
  | remove
  | preserve
deriving DecidableEq

/-- Attachment handling choice. -/
inductive AttachmentOptionKind where
  | visible
  | hidden
  | xml
deriving DecidableEq

/-- ConversionOptions of `src/utils/types.ts`. -/
structure ConversionOptions where
  includeBreadcrumbs : Bool
  includeLastModified : Bool
  includeAttachments : Bool
  includeComments : Bool
  includePageInfo : Bool
  includeTableOfContents : Bool
  includeVersionHistory : Bool
  includeLabels : Bool
  includeMetadata : Bool
  includeMacros : Bool
  includeImages : Bool
  includeLinks : Bool
  includeCodeBlocks : Bool
  includeTables : Bool
  includeLists : Bool
  includeBlockquotes : Bool
  includeHorizontalRules : Bool
  includeHeadings : Bool
  includeParagraphs : Bool
  includeInlineFormatting : Bool
  includeSpecialCharacters : Bool
  includeEmojis : Bool
  panelStyle : PanelStyleKind
  tableStyle : TableStyleKind
  codeBlockStyle : CodeStyleKind
  imageStyle : ImageStyleKind
  linkStyle : LinkStyleKind
  headingStyle : HeadingStyleKind
  macroHandling : MacroHandlingKind
  attachmentOption : AttachmentOptionKind
  includeCustomStyles : Bool
  includeCustomClasses : Bool
  includeCustomIds : Bool
  includeCustomAttributes : Bool
  includeCustomElements : Bool
  includeCustomMacros : Bool
  includeCustomContent : Bool
  includeCustomMetadata : Bool
  includeCustomLabels : Bool
  includeCustomComments : Bool
  includeCustomVersionHistory : Bool
  includeCustomPageInfo : Bool
  includeCustomTableOfContents : Bool
  includeCustomBreadcrumbs : Bool
  includeCustomLastModified : Bool

/-- The `defaultOptions` exported by `src/utils/ConfluenceConverter.ts`. -/
def defaultOptions : ConversionOptions where
  includeBreadcrumbs := true
  includeLastModified := true
  includeAttachments := false
  includeComments := false
  includePageInfo := true
  includeTableOfContents := true
  includeVersionHistory := true
  includeLabels := true
  includeMetadata := true
  includeMacros := true
  includeImages := true
  includeLinks := true
  includeCodeBlocks := true
  includeTables := true
  includeLists := true
  includeBlockquotes := true
  includeHorizontalRules := true
  includeHeadings := true
  includeParagraphs := true
  includeInlineFormatting := true
  includeSpecialCharacters := true
  includeEmojis := true
  panelStyle := .blockquote
  tableStyle := .github
  codeBlockStyle := .fenced
  imageStyle := .markdown
  linkStyle := .markdown
  headingStyle := .atx
  macroHandling := .convert
  attachmentOption := .hidden
  includeCustomStyles := true
  includeCustomClasses := true
  includeCustomIds := true
  includeCustomAttributes := true
  includeCustomElements := true
  includeCustomMacros := true
  includeCustomContent := true
  includeCustomMetadata := true
  includeCustomLabels := true
  includeCustomComments := true
  includeCustomVersionHistory := true
  includeCustomPageInfo := true
  includeCustomTableOfContents := true
  includeCustomBreadcrumbs := true
  includeCustomLastModified := true

/-- Breadcrumb of `src/utils/types.ts`: `{text: string, href?: string}`;
`href := none` is an absent (`undefined`) field. -/
structure Breadcrumb where
  text : String
  href : Option String
deriving DecidableEq

/-- DocumentMetadata of `src/utils/types.ts`, as populated by
`BreadcrumbProcessor.extractMetadata` (all fields are strings there). -/
structure DocumentMetadata where
  title : String
  lastModified : String
  createdBy : String
  createdDate : String
  breadcrumbs : List Breadcrumb

/-- Parsed document: the tree plus `document.title` (the DOM Access Layer
exposes the title of the `<title>` element as a document property). -/
structure HDoc where
  title : String
  root : HNode

/-! BreadcrumbProcessor (`src/utils/BreadcrumbProcessor.ts`). -/

/-- Elements matched by
`document.querySelectorAll('#breadcrumbs li, .breadcrumb-section ol li')`:
`li` under an element with id `breadcrumbs`, or under an `ol` that lies
under an element of class `breadcrumb-section`.  The ancestor-path state is
(inside `#breadcrumbs`, inside such an `ol`, inside `.breadcrumb-section`). -/
def collectBcItems (root : HNode) : List HNode :=
  collectCtx
    (fun st el => (st.1 || el.idAttr = "breadcrumbs",
      st.2.1 || (st.2.2 && el.tag = "ol"),
      st.2.2 || el.classes.contains "breadcrumb-section"))
    (fun st _ el => el.tag = "li" && (st.1 || st.2.1))
    (false, false, false) false [root]

/-- Crumbs built from the items of the breadcrumb container (the loop of
`extractBreadcrumbs`): a linked item yields its normalized href, an item
without a link but with text is the current page and carries `'#'`. -/
def bcFromItems : List HNode → List Breadcrumb
  | [] => []
  | item :: rest =>
    match qsFirst (fun d => d.tag = "a") item with
    | some link =>
      let href0 := match link.getAttr "href" with
        | some h => if h ≠ "" then h else "#"
        | none => "#"
      let href := if jsStartsWith href0 "/" then "." ++ href0
        else if !jsStartsWith href0 "./" && !jsStartsWith href0 "../" &&
            !jsStartsWith href0 "#" && !jsIncludes href0 "://" then "./" ++ href0
        else href0
      { text := jsTrim link.textContent, href := some href } :: bcFromItems rest
    | none =>
      if jsTrim item.textContent ≠ "" then
        { text := jsTrim item.textContent, href := some "#" } :: bcFromItems rest
      else bcFromItems rest

/-- BreadcrumbProcessor.extractBreadcrumbs: container items first, else the
title split on `' : '` when it has more than one segment, the last segment
carrying `'#'` and the earlier ones no href. -/
def extractBreadcrumbs (opts : ConversionOptions) (doc : HDoc) : List Breadcrumb :=
  if !opts.includeBreadcrumbs then []
  else
    let breadcrumbs := bcFromItems (collectBcItems doc.root)
    if breadcrumbs.isEmpty then
      let parts := jsSplit doc.title " : "
      if parts.length > 1 then
        (List.range parts.length).zip parts |>.map fun ip =>
          { text := jsTrim ip.2,
            href := if ip.1 = parts.length - 1 then some "#" else none }
      else []
    else breadcrumbs

/-- BreadcrumbProcessor.generateFrontmatter. -/
def generateFrontmatter (opts : ConversionOptions) (metadata : DocumentMetadata) :
    String :=
  if !opts.includeMetadata && !opts.includeBreadcrumbs && !opts.includeLastModified then ""
  else
    let escapeYaml := fun t => jsReplaceAll t "\"" "\\\""
    "---\n" ++ "title: \"" ++ escapeYaml metadata.title ++ "\"\n" ++
      (if opts.includeMetadata && metadata.createdBy ≠ "" then
        "created_by: \"" ++ escapeYaml metadata.createdBy ++ "\"\n" else "") ++
      (if opts.includeMetadata && metadata.createdDate ≠ "" then
        "created_date: \"" ++ escapeYaml metadata.createdDate ++ "\"\n" else "") ++
      (if opts.includeLastModified && metadata.lastModified ≠ "" then
        "last_modified: \"" ++ escapeYaml metadata.lastModified ++ "\"\n" else "") ++
      (if opts.includeBreadcrumbs && !metadata.breadcrumbs.isEmpty then
        "breadcrumbs:\n" ++ String.join (metadata.breadcrumbs.map fun crumb =>
          "  - title: \"" ++ escapeYaml crumb.text ++ "\"\n" ++
            (match crumb.href with
              | some h =>
                if h ≠ "" then
                  "    url: \"" ++ escapeYaml ((jsSplit h "?").headD "") ++ "\"\n"
                else ""
              | none => ""))
        else "") ++
      "---\n\n"

/-! Markdown normalizer (`EnhancedConfluenceConverter.cleanupMarkdown` and
`cleanupExcessiveTableDelimiters` in `src/utils/ConfluenceConverter.ts`).
Each JavaScript `replace` with its concrete regex becomes one pass below;
global matching is leftmost with scanning resumed after each match. -/

/-- Pass for `/\n{3,}/g → '\n\n'`: every maximal run of three or more
newlines collapses to two.  `pending` counts newlines seen so far. -/
def collapseNlAux (pending : Nat) : List Char → List Char
  | [] => List.replicate (min pending 2) '\n'
  | c :: rest =>
    if c = '\n' then collapseNlAux (pending + 1) rest
    else List.replicate (min pending 2) '\n' ++ c :: collapseNlAux 0 rest

/-- String wrapper for the blank-line collapsing pass. -/
def collapseNewlines (s : String) : String :=
  ⟨collapseNlAux 0 s.toList⟩

/-- Pass for `/([^\n])\nM/g → '$1\n\nM'` with `M` a marker class: the
heading, list-marker and blockquote spacing fixes.  `out` rewrites the
matched marker (the list fix replaces `[-*+]` by `-`). -/
def insertBlankBefore (isMarker : Char → Bool) (out : Char → Char) :
    List Char → List Char
  | [] => []
  | [a] => [a]
  | [a, b] => [a, b]
  | a :: b :: c :: rest =>
    if a ≠ '\n' && b = '\n' && isMarker c then
      a :: '\n' :: '\n' :: out c :: insertBlankBefore isMarker out rest
    else a :: insertBlankBefore isMarker out (b :: c :: rest)

/-- Blank line before a heading, `/([^\n])\n#/g → '$1\n\n#'`. -/
def fixBeforeHeading (s : String) : String :=
  ⟨insertBlankBefore (fun c => c = '#') (fun c => c) s.toList⟩

/-- Blank line before a list marker, `/([^\n])\n[-*+]/g → '$1\n\n-'` (the
marker itself is rewritten to `-`). -/
def fixBeforeList (s : String) : String :=
  ⟨insertBlankBefore (fun c => c = '-' || c = '*' || c = '+') (fun _ => '-') s.toList⟩

/-- Blank line before a blockquote, `/([^\n])\n>/g → '$1\n\n>'`. -/
def fixBeforeQuote (s : String) : String :=
  ⟨insertBlankBefore (fun c => c = '>') (fun c => c) s.toList⟩

/-- Line transform of `/^(#+)([^#\s])/gm → '$1 $2'`: a space is inserted
after the leading hash run when a non-hash non-space character follows. -/
def fixHeadingLine (l : List Char) : List Char :=
  let hashes := l.takeWhile fun c => c = '#'
  match hashes, List.drop hashes.length l with
  | [], _ => l
  | _, [] => l
  | _, c :: rest =>
    if c ≠ '#' && !isJsSpace c then hashes ++ ' ' :: c :: rest else l

/-- String wrapper for the heading-space pass (the pattern never crosses a
newline, so it acts line by line). -/
def fixHeadingSpace (s : String) : String :=
  String.intercalate "\n" ((jsSplit s "\n").map fun line =>
    (⟨fixHeadingLine line.toList⟩ : String))

/-- Pass for `/^P\s+/gm → R` with `P` a literal such as `'# #'`: at a line
start, the literal followed by at least one whitespace character (newlines
included, `\s` crosses lines) is replaced by `R` and the whitespace run is
consumed. -/
def fixDupHashAux (pre rep : List Char) : Nat → Bool → List Char → List Char
  | _, _, [] => []
  | 0, _, l => l
  | fuel + 1, atStart, c :: rest =>
    if atStart && pre.isPrefixOf (c :: rest) &&
        (match List.drop pre.length (c :: rest) with
          | d :: _ => isJsSpace d
          | [] => false) then
      rep ++ fixDupHashAux pre rep fuel false
        ((List.drop pre.length (c :: rest)).dropWhile isJsSpace)
    else c :: fixDupHashAux pre rep fuel (c = '\n') rest

/-- Duplicate-hash fix `/^# #\s+/gm → '## '`. -/
def fixDupHash1 (s : String) : String :=
  ⟨fixDupHashAux "# #".toList "## ".toList (s.toList.length + 1) true s.toList⟩

/-- Duplicate-hash fix `/^## #\s+/gm → '### '`. -/
def fixDupHash2 (s : String) : String :=
  ⟨fixDupHashAux "## #".toList "### ".toList (s.toList.length + 1) true s.toList⟩

/-- Ten-column delimiter row of the first excess-delimiter regex. -/
def tenColRow : List Char :=
  "| --- | --- | --- | --- | --- | --- | --- | --- | --- | --- |".toList

/-- Greedy consumption of `(?:\s*?\| --- \|)+` groups (the lazy `\s*?`
reaches the next `| --- |` exactly when only whitespace stands before it). -/
def delimGroupsAux : Nat → List Char → List Char
  | 0, l => l
  | fuel + 1, l =>
    let l1 := l.dropWhile isJsSpace
    if "| --- |".toList.isPrefixOf l1 then delimGroupsAux fuel (List.drop 7 l1)
    else l

/-- Pass for the first excess-delimiter regex: a ten-column `| --- |` row
followed by one or more whitespace-separated `| --- |` groups collapses to
the bare ten-column row. -/
def cleanupDelims1Aux : Nat → List Char → List Char
  | _, [] => []
  | 0, l => l
  | fuel + 1, c :: rest =>
    if tenColRow.isPrefixOf (c :: rest) then
      let after := List.drop tenColRow.length (c :: rest)
      if "| --- |".toList.isPrefixOf (after.dropWhile isJsSpace) then
        tenColRow ++ cleanupDelims1Aux fuel (delimGroupsAux (after.length + 1) after)
      else c :: cleanupDelims1Aux fuel rest
    else c :: cleanupDelims1Aux fuel rest

/-- Parse of one delimiter cell `(?:---|:?---:?|---:)`. -/
def parseDashCell (l : List Char) : Option (List Char × List Char) :=
  let pre := match l with
    | ':' :: r => ([':'], r)
    | r => (([] : List Char), r)
  if "---".toList.isPrefixOf pre.2 then
    match List.drop 3 pre.2 with
    | ':' :: r2 => some (pre.1 ++ "---:".toList, r2)
    | l2 => some (pre.1 ++ "---".toList, l2)
  else none

/-- Greedy parse of the `(?: D \|)+` cell repetitions of a delimiter row. -/
def parseDashSegs : Nat → List Char → List Char × List Char × Nat
  | 0, l => ([], l, 0)
  | fuel + 1, l =>
    match l with
    | ' ' :: r =>
      (match parseDashCell r with
        | some dc =>
          (match dc.2 with
            | ' ' :: '|' :: r3 =>
              let segs := parseDashSegs fuel r3
              (' ' :: dc.1 ++ ' ' :: '|' :: segs.1, segs.2.1, segs.2.2 + 1)
            | _ => ([], l, 0))
        | none => ([], l, 0))
    | _ => ([], l, 0)

/-- Parse of one full delimiter row `\| D \|(?:(?: D \|)+)\n+` (at least two
cells, then at least one newline); yields the matched text and the rest. -/
def parseDelimRow (l : List Char) : Option (List Char × List Char) :=
  match l with
  | '|' :: ' ' :: r =>
    (match parseDashCell r with
      | some dc =>
        (match dc.2 with
          | ' ' :: '|' :: r3 =>
            let segs := parseDashSegs (r3.length + 1) r3
            if segs.2.2 ≥ 1 then
              let nls := segs.2.1.takeWhile fun c => c = '\n'
              if nls ≠ [] then
                some ('|' :: ' ' :: dc.1 ++ ' ' :: '|' :: segs.1 ++ nls,
                  segs.2.1.dropWhile fun c => c = '\n')
              else none
            else none
          | _ => none)
      | none => none)
  | _ => none

/-- Greedy consumption of further delimiter rows. -/
def skipDelimRows : Nat → List Char → List Char
  | 0, l => l
  | fuel + 1, l =>
    match parseDelimRow l with
    | some pr => skipDelimRows fuel pr.2
    | none => l

/-- Pass for the second excess-delimiter regex: a run of two or more
consecutive delimiter rows collapses to the first row (with its trailing
newlines). -/
def cleanupDelims2Aux : Nat → List Char → List Char
  | _, [] => []
  | 0, l => l
  | fuel + 1, c :: rest =>
    match parseDelimRow (c :: rest) with
    | some pr =>
      (match parseDelimRow pr.2 with
        | some _ => pr.1 ++ cleanupDelims2Aux fuel (skipDelimRows (pr.2.length + 1) pr.2)
        | none => c :: cleanupDelims2Aux fuel rest)
    | none => c :: cleanupDelims2Aux fuel rest

/-- EnhancedConfluenceConverter.cleanupExcessiveTableDelimiters. -/
def cleanupExcessiveTableDelimiters (s : String) : String :=
  let s1 : String := ⟨cleanupDelims1Aux (s.toList.length + 1) s.toList⟩
  ⟨cleanupDelims2Aux (s1.toList.length + 1) s1.toList⟩

/-- EnhancedConfluenceConverter.cleanupMarkdown, the final normalization
pass, with its replacements applied in source order. -/
def cleanupMarkdown (markdown : String) : String :=
  cleanupExcessiveTableDelimiters
    (fixDupHash2 (fixDupHash1 (fixHeadingSpace
      (fixBeforeQuote (fixBeforeList (fixBeforeHeading
        (collapseNewlines markdown)))))))

/-! Conversion entry point (`EnhancedConfluenceConverter.convert`). -/

/-- Argument of `convert(html)`: a JavaScript string or a non-string value
(`typeof html !== 'string'`). -/
inductive JsInput where
  | str (s : String)
  | nonString

/-- Presence of a `parsererror` node anywhere in the parsed tree,
`document.querySelector('parsererror') !== null`. -/
def hasParserError (doc : HDoc) : Bool :=
  (doc.root.allNodes.filter fun m => m.isElem && m.tag = "parsererror").length ≠ 0

/-- Message wrapper of the top-level `catch`:
`Error converting HTML to Markdown: <inner message>`. -/
def convErrMsg (inner : String) : String :=
  "Error converting HTML to Markdown: " ++ inner

/-- EnhancedConfluenceConverter.convert, lines 201-268: the input guard, the
parse step and the parser-error check; `parse` is the external `DOMParser`
capability and `assemble` the success path (metadata, frontmatter, title,
content walk, history, attachments, cleanup — lines 217-263), which runs
only after every guard has passed.  A thrown error is the `Except.error`
case, carrying the wrapped message and no partial output. -/
def convert (parse : String → HDoc) (assemble : HDoc → String) :
    JsInput → Except String String
  | .nonString => .error (convErrMsg "Invalid HTML input: Input must be a non-empty string")
  | .str s =>
    if s = "" then
      .error (convErrMsg "Invalid HTML input: Input must be a non-empty string")
    else
      let doc := parse s
      if hasParserError doc then
        .error (convErrMsg "Failed to parse HTML: Invalid HTML structure")
      else .ok (assemble doc)

/-- Presence of three consecutive newlines, the shape of a
`/\n{3,}/` match. -/
def hasTriple (l : List Char) : Bool :=
  l.tails.any fun t => ['\n', '\n', '\n'].isPrefixOf t

/-- Identities that one iteration of the GitHub-row loop inserts into the
ProcessedSet: the row and all of its cells. -/
def rowTouches (r : HNode) : List Nat :=
  r.eid :: (rowCells r).map HNode.eid

/-- Header flags the GitHub-row loop computes when no row is skipped: a row
is a header exactly when it is the first row or holds a `th` descendant. -/
def githubHeaderFlags (idx : Nat) : List HNode → List Bool
  | [] => []
  | r :: rs =>
    (idx = 0 || (qsFirst (fun d => d.tag = "th") r).isSome) :: githubHeaderFlags (idx + 1) rs

/-! Claim theorems. -/

/-- C1: table classification is total with fixed precedence
History > Layout > Complex > Standard, first match wins; in particular a
table satisfying both the History and the Layout predicate classifies (and
is dispatched by `processTable`) as History, and an unprocessed `table`
element is dispatched to exactly the renderer selected by `classifyTable`. -/
theorem classifyTable_total_precedence (anc : List HNode) (s : List Nat) (t : HNode) :
    (classifyTable anc t = .history ∨ classifyTable anc t = .layout ∨
      classifyTable anc t = .complex ∨ classifyTable anc t = .standard) ∧
    (isHistoryTable anc t = true → isLayoutTable anc t = true →
      classifyTable anc t = .history) ∧
    (psHas s t = false → t.tag = "table" →
      processTable anc s t =
        match classifyTable anc t with
        | .history => processHistoryTable (psAdd s t) t
        | .layout => processLayoutTable (psAdd s t) t
        | .complex => processComplexTable (psAdd s t) t
        | .standard => processGithubTable (psAdd s t) t) := by
  refine ⟨?_, ?_, ?_⟩
  · cases h : classifyTable anc t <;> simp
  · intro h1 _
    simp [classifyTable, h1]
  · intro hs ht
    simp [processTable, hs, ht]

/-- Witness for C1: a table carrying both the `tableview` (History) and the
`layout` (Layout) class satisfies both predicates and classifies History. -/
theorem classifyTable_total_precedence_witness :
    isHistoryTable [] (.elem 1 "table" "" ["tableview", "layout"] [] []) = true ∧
    isLayoutTable [] (.elem 1 "table" "" ["tableview", "layout"] [] []) = true ∧
    classifyTable [] (.elem 1 "table" "" ["tableview", "layout"] [] []) = .history :=
  ⟨by decide, by decide,
    (classifyTable_total_precedence [] [] (.elem 1 "table" "" ["tableview", "layout"] [] [])).2.1
      (by decide) (by decide)⟩

/-- C10: a history-table row with fewer than three `td` cells is skipped
entirely — it is added to the ProcessedSet but emits no output row. -/
theorem historyStep_short_row (s : List Nat) (r : HNode)
    (h1 : psHas s r = false)
    (h2 : (qsa (fun d => d.tag = "td") r).length < 3) :
    historyStep s r = (none, psAdd s r) := by
  unfold historyStep
  rw [h1]
  rcases hc : qsa (fun d => d.tag = "td") r with _ | ⟨c0, _ | ⟨c1, _ | ⟨c2, rest⟩⟩⟩ <;>
    simp [hc] at h2 ⊢
  omega

/-- Witness for C10: a row with two `td` cells emits nothing and lands in
the set. -/
theorem historyStep_short_row_witness :
    historyStep []
        (.elem 1 "tr" "" [] [] [.elem 2 "td" "" [] [] [.text "v1"],
          .elem 3 "td" "" [] [] [.text "today"]]) =
      (none, [1]) :=
  historyStep_short_row _ _ (by decide) (by decide)

/-- C9: with metadata, breadcrumbs and last-modified all disabled,
`generateFrontmatter` returns the empty string for every metadata value. -/
theorem generateFrontmatter_all_disabled (opts : ConversionOptions)
    (metadata : DocumentMetadata)
    (h1 : opts.includeMetadata = false)
    (h2 : opts.includeBreadcrumbs = false)
    (h3 : opts.includeLastModified = false) :
    generateFrontmatter opts metadata = "" := by
  simp [generateFrontmatter, h1, h2, h3]

/-- Witness for C9 at a concrete option record and metadata value. -/
theorem generateFrontmatter_all_disabled_witness :
    generateFrontmatter
        { defaultOptions with
          includeMetadata := false
          includeBreadcrumbs := false
          includeLastModified := false }
        ⟨"Page", "yesterday", "someone", "Jan 1, 2020",
          [⟨"Home", some "./home.html"⟩]⟩ = "" :=
  generateFrontmatter_all_disabled _ _ rfl rfl rfl

/-- C8: `convert` fails (aborts with an error value, no partial output) for
a non-string input, for the empty string, and whenever the parsed tree
contains a `parsererror` node, whatever the parser and the success path
produce. -/
theorem convert_parse_failures (parse : String → HDoc) (assemble : HDoc → String) :
    (∀ inp, (inp = JsInput.nonString ∨ inp = JsInput.str "") →
      convert parse assemble inp =
        .error (convErrMsg "Invalid HTML input: Input must be a non-empty string")) ∧
    (∀ s, s ≠ "" → hasParserError (parse s) = true →
      convert parse assemble (JsInput.str s) =
        .error (convErrMsg "Failed to parse HTML: Invalid HTML structure")) := by
  constructor
  · rintro inp (rfl | rfl) <;> simp [convert]
  · intro s hs hp
    simp [convert, hs, hp]

/-- Witness for C8: a parser producing a `parsererror` root makes `convert`
abort on a non-empty input, and a non-string input aborts as well. -/
theorem convert_parse_failures_witness :
    convert (fun _ => ⟨"t", .elem 1 "parsererror" "" [] [] []⟩) (fun _ => "body")
        (JsInput.str "<bad") =
      .error (convErrMsg "Failed to parse HTML: Invalid HTML structure") ∧
    convert (fun _ => ⟨"t", .elem 1 "parsererror" "" [] [] []⟩) (fun _ => "body")
        JsInput.nonString =
      .error (convErrMsg "Invalid HTML input: Input must be a non-empty string") :=
  ⟨(convert_parse_failures _ _).2 "<bad" (by decide) (by decide),
    (convert_parse_failures _ _).1 .nonString (Or.inl rfl)⟩

/-- C7: a table whose header cells read exactly
`["Version", "Published", "Changed By", "Comment"]` satisfies the History
predicate and classifies History, no matter which classes, id, ancestors or
other content are present. -/
theorem historyHeaders_classify (anc : List HNode) (t : HNode)
    (h : (headerCells t).map (fun c => jsTrim c.textContent) =
      ["Version", "Published", "Changed By", "Comment"]) :
    isHistoryTable anc t = true ∧ classifyTable anc t = .history := by
  have hl : ((headerCells t).map fun c => jsToLower (jsTrim c.textContent)) =
      ["version", "published", "changed by", "comment"] := by
    have h2 := congrArg (List.map jsToLower) h
    rw [List.map_map] at h2
    simpa using h2
  have hh : isHistoryTable anc t = true := by
    unfold isHistoryTable
    rw [hl]
    split
    · rfl
    · simp
  exact ⟨hh, by simp [classifyTable, hh]⟩

/-- Witness for C7: a concrete table with those four header cells and
unrelated classes. -/
theorem historyHeaders_classify_witness :
    isHistoryTable [] (.elem 1 "table" "" ["confluenceTable", "layout"] []
        [.elem 2 "tr" "" [] []
          [.elem 3 "th" "" [] [] [.text "Version"],
            .elem 4 "th" "" [] [] [.text "Published"],
            .elem 5 "th" "" [] [] [.text "Changed By"],
            .elem 6 "th" "" [] [] [.text "Comment"]]]) = true ∧
    classifyTable [] (.elem 1 "table" "" ["confluenceTable", "layout"] []
        [.elem 2 "tr" "" [] []
          [.elem 3 "th" "" [] [] [.text "Version"],
            .elem 4 "th" "" [] [] [.text "Published"],
            .elem 5 "th" "" [] [] [.text "Changed By"],
            .elem 6 "th" "" [] [] [.text "Comment"]]]) = .history :=
  historyHeaders_classify [] _ (by decide)

/-- C4 counterexample: with the title `"Space : Parent : Child"` and no
breadcrumb container, the fallback attaches `'#'` to the *last* crumb
instead of leaving its href undefined, so the claimed crumb list is not the
computed one. -/
theorem extractBreadcrumbs_fallback_cex :
    extractBreadcrumbs defaultOptions
        ⟨"Space : Parent : Child", .elem 1 "html" "" [] [] []⟩ =
      [⟨"Space", none⟩, ⟨"Parent", none⟩, ⟨"Child", some "#"⟩] ∧
    extractBreadcrumbs defaultOptions
        ⟨"Space : Parent : Child", .elem 1 "html" "" [] [] []⟩ ≠
      [⟨"Space", none⟩, ⟨"Parent", none⟩, ⟨"Child", none⟩] := by
  constructor <;> decide

/-- C4 amended: for every document with title `"Space : Parent : Child"`,
no breadcrumb-container items and breadcrumbs enabled, extraction yields
exactly the three crumbs Space, Parent, Child in order, the first two with
no href and the last carrying the terminal marker `'#'`. -/
theorem extractBreadcrumbs_title_fallback (opts : ConversionOptions) (doc : HDoc)
    (h1 : opts.includeBreadcrumbs = true)
    (h2 : (collectBcItems doc.root).isEmpty = true)
    (h3 : doc.title = "Space : Parent : Child") :
    extractBreadcrumbs opts doc =
      [⟨"Space", none⟩, ⟨"Parent", none⟩, ⟨"Child", some "#"⟩] := by
  have h2' : collectBcItems doc.root = [] := by
    simpa using h2
  unfold extractBreadcrumbs
  rw [h1, h2', h3]
  decide

/-- Witness for the amended C4 at a concrete document. -/
theorem extractBreadcrumbs_title_fallback_witness :
    extractBreadcrumbs defaultOptions
        ⟨"Space : Parent : Child",
          .elem 1 "html" "" [] [] [.elem 2 "body" "" [] [] [.text "hello"]]⟩ =
      [⟨"Space", none⟩, ⟨"Parent", none⟩, ⟨"Child", some "#"⟩] :=
  extractBreadcrumbs_title_fallback _ _ rfl (by decide) rfl

/-! Membership lemmas for the ProcessedSet: every sub-converter only ever
adds to the set, so an identity once present stays present. -/

/-- Membership survives `psAdd`. -/
theorem mem_psAdd {x : Nat} {s : List Nat} (n : HNode) (h : x ∈ s) : x ∈ psAdd s n := by
  simp [psAdd, h]

/-- Membership in the set is what `psHas` reports. -/
theorem psHas_eq_true {s : List Nat} {n : HNode} (h : n.eid ∈ s) : psHas s n = true := by
  simpa [psHas] using h

/-- Converse of `psHas_eq_true`. -/
theorem mem_of_psHas {s : List Nat} {n : HNode} (h : psHas s n = true) : n.eid ∈ s := by
  simpa [psHas] using h

/-- Membership survives the cell-adding fold of the GitHub renderer. -/
theorem mem_foldl_psAdd {x : Nat} (cells : List HNode) {s : List Nat} (h : x ∈ s) :
    x ∈ cells.foldl psAdd s := by
  induction cells generalizing s with
  | nil => exact h
  | cons c cs ih => exact ih (mem_psAdd c h)

/-- State component of one history-row step: the set, with the row added
when it was not yet processed. -/
theorem historyStep_snd (s : List Nat) (r : HNode) :
    (historyStep s r).2 = if psHas s r then s else psAdd s r := by
  by_cases hr : psHas s r = true
  · simp [historyStep, hr]
  · rcases hc : qsa (fun d => d.tag = "td") r with _ | ⟨c0, _ | ⟨c1, _ | ⟨c2, rest⟩⟩⟩ <;>
      simp [historyStep, hr, hc]

/-- Membership survives one history-row step. -/
theorem mem_historyStep {x : Nat} {s : List Nat} (r : HNode) (h : x ∈ s) :
    x ∈ (historyStep s r).2 := by
  rw [historyStep_snd]
  split
  · exact h
  · exact mem_psAdd r h

/-- Membership survives the history-row fold. -/
theorem mem_historyRowsFold {x : Nat} (rows : List HNode) {s : List Nat} (h : x ∈ s) :
    x ∈ (historyRowsFold s rows).2 := by
  induction rows generalizing s with
  | nil => exact h
  | cons r rs ih =>
    rcases hst : historyStep s r with ⟨o, s1⟩
    have h1 : x ∈ s1 := by
      have := mem_historyStep (x := x) (s := s) r h
      rw [hst] at this
      exact this
    simpa [historyRowsFold, hst] using ih h1

/-- Membership survives the layout-cell fold. -/
theorem mem_layoutCellsFold {x : Nat} (cells : List HNode) {s : List Nat} (h : x ∈ s) :
    x ∈ (layoutCellsFold s cells).2 := by
  induction cells generalizing s with
  | nil => exact h
  | cons c cs ih =>
    by_cases hc : psHas s c = true
    · simpa [layoutCellsFold, hc] using ih h
    · simp only [layoutCellsFold, Bool.not_eq_true] at hc ⊢
      rw [hc]
      simpa using ih (mem_psAdd c h)

/-- Membership survives the layout-row fold. -/
theorem mem_layoutRowsFold {x : Nat} (rows : List HNode) {s : List Nat} (h : x ∈ s) :
    x ∈ (layoutRowsFold s rows).2 := by
  induction rows generalizing s with
  | nil => exact h
  | cons r rs ih =>
    by_cases hr : psHas s r = true
    · simpa [layoutRowsFold, hr] using ih h
    · have h1 : x ∈ (layoutCellsFold (psAdd s r) (rowCells r)).2 :=
        mem_layoutCellsFold _ (mem_psAdd r h)
      simp only [layoutRowsFold, Bool.not_eq_true] at hr ⊢
      rw [hr]
      simpa using ih h1

/-- Membership survives the complex-cell fold. -/
theorem mem_complexCellsFold {x : Nat} (cells : List HNode) {s : List Nat} (h : x ∈ s) :
    x ∈ (complexCellsFold s cells).2 := by
  induction cells generalizing s with
  | nil => exact h
  | cons c cs ih =>
    by_cases hc : psHas s c = true
    · simpa [complexCellsFold, hc] using ih h
    · simp only [complexCellsFold, Bool.not_eq_true] at hc ⊢
      rw [hc]
      simpa using ih (mem_psAdd c h)

/-- Membership survives the complex-row fold. -/
theorem mem_complexRowsFold {x : Nat} (rows : List HNode) {s : List Nat} (h : x ∈ s) :
    x ∈ (complexRowsFold s rows).2 := by
  induction rows generalizing s with
  | nil => exact h
  | cons r rs ih =>
    by_cases hr : psHas s r = true
    · simpa [complexRowsFold, hr] using ih h
    · simp only [complexRowsFold, Bool.not_eq_true] at hr ⊢
      rw [hr]
      rcases hc : rowCells r with _ | ⟨c0, restCells⟩
      · simpa [hc] using ih (mem_psAdd r h)
      · have h1 : x ∈ (complexCellsFold (psAdd s r) restCells).2 :=
          mem_complexCellsFold _ (mem_psAdd r h)
        simpa [hc] using ih h1

/-- Membership survives the GitHub-row fold. -/
theorem mem_githubRowsFold {x : Nat} (maxCells : Nat) (rows : List HNode) {s : List Nat}
    (idx : Nat) (h : x ∈ s) : x ∈ (githubRowsFold maxCells s idx rows).2 := by
  induction rows generalizing s idx with
  | nil => exact h
  | cons r rs ih =>
    by_cases hr : psHas s r = true
    · simpa [githubRowsFold, hr] using ih _ h
    · have h1 : x ∈ (rowCells r).foldl psAdd (psAdd s r) :=
        mem_foldl_psAdd _ (mem_psAdd r h)
      simp only [githubRowsFold, Bool.not_eq_true] at hr ⊢
      rw [hr]
      simpa using ih _ h1

/-- Membership survives `processHistoryTable`. -/
theorem mem_processHistoryTable {x : Nat} {s : List Nat} (t : HNode) (h : x ∈ s) :
    x ∈ (processHistoryTable s t).2 := by
  rcases hf : historyRowsFold s (historyRows t) with ⟨body, s'⟩
  have hx := mem_historyRowsFold (x := x) (historyRows t) h
  rw [hf] at hx
  simpa [processHistoryTable, hf] using hx

/-- Membership survives `processComplexTable`. -/
theorem mem_processComplexTable {x : Nat} {s : List Nat} (t : HNode) (h : x ∈ s) :
    x ∈ (processComplexTable s t).2 := by
  rcases hf : complexRowsFold s (tableRows t) with ⟨body, s'⟩
  have hx := mem_complexRowsFold (x := x) (tableRows t) h
  rw [hf] at hx
  simpa [processComplexTable, hf] using hx

/-- Membership survives `processGithubTable`. -/
theorem mem_processGithubTable {x : Nat} {s : List Nat} (t : HNode) (h : x ∈ s) :
    x ∈ (processGithubTable s t).2 := by
  by_cases h0 : (tableRows t).length = 0
  · simpa [processGithubTable, h0] using h
  · by_cases h1 : githubMaxCells (tableRows t) = 0
    · simpa [processGithubTable, h0, h1] using h
    · rcases hf : githubRowsFold (githubMaxCells (tableRows t)) s 0 (tableRows t)
        with ⟨outs, s'⟩
      have hx := mem_githubRowsFold (x := x) (githubMaxCells (tableRows t))
        (tableRows t) 0 h
      rw [hf] at hx
      simpa [processGithubTable, h0, h1, hf] using hx

/-- Identity of the processed element is in the state after `processTable`. -/
theorem eid_mem_processTable (anc : List HNode) (s : List Nat) (t : HNode) :
    t.eid ∈ (processTable anc s t).2 := by
  by_cases ht : psHas s t = true
  · simpa [processTable, ht] using mem_of_psHas ht
  · have hmem : t.eid ∈ psAdd s t := by simp [psAdd]
    by_cases htag : t.tag = "table"
    · cases hcl : classifyTable anc t <;>
        simp only [processTable, ht, htag, hcl, Bool.false_eq_true, if_false,
          ne_eq, not_true_eq_false, reduceIte] <;>
        first
        | exact mem_processHistoryTable t hmem
        | exact mem_layoutRowsFold _ hmem
        | exact mem_processComplexTable t hmem
        | exact mem_processGithubTable t hmem
    · simpa [processTable, ht, htag] using hmem

/-- Identity of the processed element is in the state after `processPanel`. -/
theorem eid_mem_processPanel (style : PanelStyleKind) (s : List Nat) (p : HNode) :
    p.eid ∈ (processPanel style s p).2 := by
  by_cases hp : psHas s p = true
  · simpa [processPanel, hp] using mem_of_psHas hp
  · have hp' : psHas s p = false := by simpa using hp
    rcases hq : qsFirst (fun d => d.classes.contains "panelContent"
        || d.classes.contains "panel-body" || d.classes.contains "aui-message-content") p
      with _ | ce <;> simp only [processPanel, hp', hq] <;> simp [psAdd]

/-- Identity of the processed element is in the state after
`processExpandMacro`. -/
theorem eid_mem_processExpandMacro (s : List Nat) (e : HNode) :
    e.eid ∈ (processExpandMacro s e).2 := by
  by_cases he : psHas s e = true
  · simpa [processExpandMacro, he] using mem_of_psHas he
  · have he' : psHas s e = false := by simpa using he
    rcases hq : qsFirst (fun d => d.classes.contains "expand-content") e
      with _ | ce <;> simp only [processExpandMacro, he', hq] <;> simp [psAdd]

/-- Identity of the processed element is in the state after
`processCodeMacro`. -/
theorem eid_mem_processCodeMacro (codeStyle : CodeStyleKind) (s : List Nat) (e : HNode) :
    e.eid ∈ (processCodeMacro codeStyle s e).2 := by
  by_cases he : psHas s e = true
  · simpa [processCodeMacro, he] using mem_of_psHas he
  · cases codeStyle <;> simp [processCodeMacro, he, psAdd]

/-- Identity of the processed element is in the state after
`processTocMacro`. -/
theorem eid_mem_processTocMacro (s : List Nat) (e : HNode) :
    e.eid ∈ (processTocMacro s e).2 := by
  by_cases he : psHas s e = true
  · simpa [processTocMacro, he] using mem_of_psHas he
  · simp [processTocMacro, he, psAdd]

/-- Identity of the processed element is in the state after
`processJiraMacro`. -/
theorem eid_mem_processJiraMacro (s : List Nat) (e : HNode) :
    e.eid ∈ (processJiraMacro s e).2 := by
  by_cases he : psHas s e = true
  · simpa [processJiraMacro, he] using mem_of_psHas he
  · simp [processJiraMacro, he, psAdd]

/-- Identity of the processed element is in the state after
`processStatusMacro`. -/
theorem eid_mem_processStatusMacro (style : PanelStyleKind) (s : List Nat) (e : HNode) :
    e.eid ∈ (processStatusMacro style s e).2 := by
  by_cases he : psHas s e = true
  · simpa [processStatusMacro, he] using mem_of_psHas he
  · by_cases hd : style = PanelStyleKind.div <;> simp [processStatusMacro, he, hd, psAdd]

/-- Guard clause of `processTable` on an already-processed element. -/
theorem processTable_skip (anc : List HNode) {s : List Nat} {e : HNode}
    (h : psHas s e = true) : processTable anc s e = ("", s) := by
  simp [processTable, h]

/-- Guard clause of `processPanel` on an already-processed element. -/
theorem processPanel_skip (style : PanelStyleKind) {s : List Nat} {e : HNode}
    (h : psHas s e = true) : processPanel style s e = ("", s) := by
  simp [processPanel, h]

/-- Guard clause of `processExpandMacro` on an already-processed element. -/
theorem processExpandMacro_skip {s : List Nat} {e : HNode}
    (h : psHas s e = true) : processExpandMacro s e = ("", s) := by
  simp [processExpandMacro, h]

/-- Guard clause of `processCodeMacro` on an already-processed element. -/
theorem processCodeMacro_skip (codeStyle : CodeStyleKind) {s : List Nat} {e : HNode}
    (h : psHas s e = true) : processCodeMacro codeStyle s e = ("", s) := by
  simp [processCodeMacro, h]

/-- Guard clause of `processTocMacro` on an already-processed element. -/
theorem processTocMacro_skip {s : List Nat} {e : HNode}
    (h : psHas s e = true) : processTocMacro s e = ("", s) := by
  simp [processTocMacro, h]

/-- Guard clause of `processJiraMacro` on an already-processed element. -/
theorem processJiraMacro_skip {s : List Nat} {e : HNode}
    (h : psHas s e = true) : processJiraMacro s e = ("", s) := by
  simp [processJiraMacro, h]

/-- Guard clause of `processStatusMacro` on an already-processed element. -/
theorem processStatusMacro_skip (style : PanelStyleKind) {s : List Nat} {e : HNode}
    (h : psHas s e = true) : processStatusMacro style s e = ("", s) := by
  simp [processStatusMacro, h]

/-- C2: every specialized sub-converter is idempotent per element — after a
first invocation on `e` has recorded `e` in the per-call ProcessedSet, a
second invocation of the same sub-converter on `e` returns the empty
string. -/
theorem subConverters_idempotent (anc : List HNode) (style : PanelStyleKind)
    (codeStyle : CodeStyleKind) (s : List Nat) (e : HNode) :
    (processTable anc (processTable anc s e).2 e).1 = "" ∧
    (processPanel style (processPanel style s e).2 e).1 = "" ∧
    (processExpandMacro (processExpandMacro s e).2 e).1 = "" ∧
    (processCodeMacro codeStyle (processCodeMacro codeStyle s e).2 e).1 = "" ∧
    (processTocMacro (processTocMacro s e).2 e).1 = "" ∧
    (processJiraMacro (processJiraMacro s e).2 e).1 = "" ∧
    (processStatusMacro style (processStatusMacro style s e).2 e).1 = "" :=
  ⟨by rw [processTable_skip anc (psHas_eq_true (eid_mem_processTable anc s e))],
    by rw [processPanel_skip style (psHas_eq_true (eid_mem_processPanel style s e))],
    by rw [processExpandMacro_skip (psHas_eq_true (eid_mem_processExpandMacro s e))],
    by rw [processCodeMacro_skip codeStyle
      (psHas_eq_true (eid_mem_processCodeMacro codeStyle s e))],
    by rw [processTocMacro_skip (psHas_eq_true (eid_mem_processTocMacro s e))],
    by rw [processJiraMacro_skip (psHas_eq_true (eid_mem_processJiraMacro s e))],
    by rw [processStatusMacro_skip style
      (psHas_eq_true (eid_mem_processStatusMacro style s e))]⟩

/-! Idempotence of the blank-line collapsing pass. -/

/-- Unfolding of `hasTriple` over a cons. -/
theorem hasTriple_cons (a : Char) (m : List Char) :
    hasTriple (a :: m) = (['\n', '\n', '\n'].isPrefixOf (a :: m) || hasTriple m) := by
  simp [hasTriple]

/-- A triple in a suffix is a triple in the whole. -/
theorem hasTriple_of_append {m : List Char} (pre : List Char)
    (h : hasTriple (pre ++ m) = false) : hasTriple m = false := by
  induction pre with
  | nil => exact h
  | cons p ps ih =>
    rw [List.cons_append, hasTriple_cons, Bool.or_eq_false_iff] at h
    exact ih h.2

/-- Short newline runs followed by a non-newline never hold a triple more
than their tail does. -/
theorem hasTriple_replicate_cons {c : Char} (hc : c ≠ '\n') (k : Nat) (hk : k ≤ 2)
    (m : List Char) :
    hasTriple (List.replicate k '\n' ++ c :: m) = hasTriple m := by
  have hbeq : ('\n' == c) = false := beq_eq_false_iff_ne.mpr (Ne.symm hc)
  interval_cases k
  · rw [List.replicate_zero, List.nil_append, hasTriple_cons]
    simp [List.isPrefixOf, hbeq]
  · rw [show List.replicate 1 '\n' ++ c :: m = '\n' :: c :: m from rfl,
      hasTriple_cons, hasTriple_cons]
    simp [List.isPrefixOf, hbeq]
  · rw [show List.replicate 2 '\n' ++ c :: m = '\n' :: '\n' :: c :: m from rfl,
      hasTriple_cons, hasTriple_cons, hasTriple_cons]
    simp [List.isPrefixOf, hbeq]

/-- Output of the collapsing scan never holds three consecutive newlines. -/
theorem hasTriple_collapseNlAux (l : List Char) : ∀ n, hasTriple (collapseNlAux n l) = false := by
  induction l with
  | nil =>
    intro n
    have : min n 2 = 0 ∨ min n 2 = 1 ∨ min n 2 = 2 := by omega
    rcases this with h | h | h <;> simp [collapseNlAux, h] <;> decide
  | cons c rest ih =>
    intro n
    by_cases hc : c = '\n'
    · subst hc
      simpa [collapseNlAux] using ih (n + 1)
    · have : min n 2 ≤ 2 := by omega
      simpa [collapseNlAux, hc, hasTriple_replicate_cons hc _ this] using ih 0

/-- The collapsing scan is the identity on triple-free text (carrying its
pending newlines in front). -/
theorem collapseNlAux_no_triple (l : List Char) :
    ∀ n, n ≤ 2 → hasTriple (List.replicate n '\n' ++ l) = false →
      collapseNlAux n l = List.replicate n '\n' ++ l := by
  induction l with
  | nil =>
    intro n hn _
    simp [collapseNlAux, Nat.min_eq_left hn]
  | cons c rest ih =>
    intro n hn h
    by_cases hc : c = '\n'
    · subst hc
      have hshift : List.replicate n '\n' ++ '\n' :: rest =
          List.replicate (n + 1) '\n' ++ rest := by
        rw [List.replicate_succ', List.append_assoc]
        rfl
      have hn1 : n + 1 ≤ 2 := by
        rcases Nat.lt_or_ge n 2 with h2 | h2
        · omega
        · exfalso
          have hn2 : n = 2 := by omega
          subst hn2
          rw [show List.replicate 2 '\n' ++ '\n' :: rest =
            '\n' :: '\n' :: '\n' :: rest from rfl, hasTriple_cons] at h
          simp [List.isPrefixOf] at h
      rw [hshift] at h
      simp only [collapseNlAux]
      rw [ih (n + 1) hn1 h, hshift]
      simp
    · have hrest : hasTriple rest = false := by
        have h1 : hasTriple (c :: rest) = false := hasTriple_of_append _ h
        rw [hasTriple_cons, Bool.or_eq_false_iff] at h1
        exact h1.2
      simp only [collapseNlAux, hc, Nat.min_eq_left hn, if_neg hc]
      rw [ih 0 (by omega) (by simpa using hrest)]
      rfl

/-- C3 counterexample: the normalization pass is not idempotent.  On
`"a\n#\n#"` the blank-line-before-heading rule separates only the first of
the two back-to-back headings (its scan resumes after the matched `#`), so
a second pass inserts one more blank line and changes the output. -/
theorem cleanupMarkdown_not_idempotent :
    cleanupMarkdown (cleanupMarkdown "a\n#\n#") ≠ cleanupMarkdown "a\n#\n#" ∧
    cleanupMarkdown "a\n#\n#" = "a\n\n#\n#" ∧
    cleanupMarkdown (cleanupMarkdown "a\n#\n#") = "a\n\n#\n\n#" := by
  refine ⟨?_, ?_, ?_⟩ <;> decide

/-- C3 amended: the full normalize pass is not idempotent (see the
counterexample), but its blank-line collapsing sub-pass is: collapsing
already-collapsed text changes nothing. -/
theorem collapseNewlines_idempotent (s : String) :
    collapseNewlines (collapseNewlines s) = collapseNewlines s := by
  unfold collapseNewlines
  have h1 : hasTriple (collapseNlAux 0 s.toList) = false := hasTriple_collapseNlAux _ 0
  have h2 := collapseNlAux_no_triple (l := collapseNlAux 0 s.toList) 0 (by omega)
    (by simpa using h1)
  simpa using congrArg String.mk h2

/-! Column-count facts for the GitHub-style renderer. -/

/-- Every member bounds `foldr max 0` from below. -/
theorem le_foldr_max {x : Nat} : ∀ {l : List Nat}, x ∈ l → x ≤ l.foldr max 0 := by
  intro l
  induction l with
  | nil => intro h; cases h
  | cons a l ih =>
    intro h
    cases h with
    | head => exact le_max_left _ _
    | tail _ h => exact le_trans (ih h) (le_max_right _ _)

/-- On a non-empty list, `foldr max 0` is attained. -/
theorem foldr_max_mem : ∀ {l : List Nat}, l ≠ [] → l.foldr max 0 ∈ l := by
  intro l
  induction l with
  | nil => intro h; cases h rfl
  | cons a l ih =>
    intro _
    rcases l with _ | ⟨b, l1⟩
    · simp
    · rcases Nat.le_total ((b :: l1).foldr max 0) a with hle | hle
      · have hmax : (a :: b :: l1).foldr max 0 = a := by
          simp only [List.foldr_cons] at hle ⊢
          exact max_eq_left hle
        rw [hmax]
        exact List.mem_cons_self a _
      · have hmax : (a :: b :: l1).foldr max 0 = (b :: l1).foldr max 0 := by
          simp only [List.foldr_cons] at hle ⊢
          exact max_eq_right hle
        rw [hmax]
        exact List.mem_cons_of_mem a (ih (by simp))

/-- Slots over an empty cell list are all padding. -/
theorem range_map_get?_nil {α : Type} (k : Nat) :
    (List.range k).map (([] : List α).get?) = List.replicate k none := by
  induction k with
  | zero => simp
  | succ k ihk =>
    rw [List.range_succ, List.map_append, ihk, List.replicate_succ']
    simp

/-- The `get?` slots over `range (length + k)` are the cells followed by `k`
padding slots. -/
theorem range_map_get? {α : Type} (l : List α) (k : Nat) :
    (List.range (l.length + k)).map l.get? = l.map some ++ List.replicate k none := by
  induction l with
  | nil =>
    simpa using range_map_get?_nil (α := α) k
  | cons a l ih =>
    have harr : (a :: l).length + k = (l.length + k) + 1 := by
      simp [Nat.succ_add]
    rw [harr, List.range_succ_eq_map, List.map_cons, List.map_map]
    have hcomp : ((a :: l).get? ∘ Nat.succ) = l.get? := by
      funext i
      simp
    rw [hcomp, ih]
    simp

/-- C6: in the Standard (GitHub-style) rendering the column count is the
maximum cell count over all rows of the table, and every row renders one
slot per column — its own cells first, then empty padding slots up to the
column count. -/
theorem githubTable_column_padding (t : HNode)
    (h : (tableRows t).length ≠ 0) :
    (∀ r ∈ tableRows t, (rowCells r).length ≤ githubMaxCells (tableRows t)) ∧
    (∃ r ∈ tableRows t, (rowCells r).length = githubMaxCells (tableRows t)) ∧
    (∀ r ∈ tableRows t,
      (List.range (githubMaxCells (tableRows t))).map (rowCells r).get? =
        (rowCells r).map some ++
          List.replicate (githubMaxCells (tableRows t) - (rowCells r).length) none) := by
  have hne : (tableRows t).map (fun r => (rowCells r).length) ≠ [] := by
    intro he
    apply h
    have := congrArg List.length he
    simpa using this
  refine ⟨?_, ?_, ?_⟩
  · intro r hr
    exact le_foldr_max (List.mem_map_of_mem _ hr)
  · have hmem := foldr_max_mem hne
    rcases List.mem_map.mp hmem with ⟨r, hr, hval⟩
    exact ⟨r, hr, hval⟩
  · intro r hr
    have hle : (rowCells r).length ≤ githubMaxCells (tableRows t) :=
      le_foldr_max (List.mem_map_of_mem _ hr)
    have harr : githubMaxCells (tableRows t) =
        (rowCells r).length + (githubMaxCells (tableRows t) - (rowCells r).length) := by
      omega
    have hslots := range_map_get? (rowCells r)
      (githubMaxCells (tableRows t) - (rowCells r).length)
    rw [← harr] at hslots
    exact hslots

/-- Witness for C6: a table with a 3-cell and a 2-cell row has column count
3, the short row gets one padding slot, and the full rendering emits both
rows with three columns. -/
theorem githubTable_column_padding_witness :
    githubMaxCells (tableRows (.elem 1 "table" "" [] []
      [.elem 2 "tr" "" [] [] [.elem 3 "td" "" [] [] [.text "a"],
        .elem 4 "td" "" [] [] [.text "b"], .elem 5 "td" "" [] [] [.text "x"]],
       .elem 6 "tr" "" [] [] [.elem 7 "td" "" [] [] [.text "c"],
        .elem 8 "td" "" [] [] [.text "d"]]])) = 3 ∧
    (∃ r ∈ tableRows (.elem 1 "table" "" [] []
      [.elem 2 "tr" "" [] [] [.elem 3 "td" "" [] [] [.text "a"],
        .elem 4 "td" "" [] [] [.text "b"], .elem 5 "td" "" [] [] [.text "x"]],
       .elem 6 "tr" "" [] [] [.elem 7 "td" "" [] [] [.text "c"],
        .elem 8 "td" "" [] [] [.text "d"]]]),
      (rowCells r).length = githubMaxCells (tableRows (.elem 1 "table" "" [] []
        [.elem 2 "tr" "" [] [] [.elem 3 "td" "" [] [] [.text "a"],
          .elem 4 "td" "" [] [] [.text "b"], .elem 5 "td" "" [] [] [.text "x"]],
         .elem 6 "tr" "" [] [] [.elem 7 "td" "" [] [] [.text "c"],
          .elem 8 "td" "" [] [] [.text "d"]]]))) ∧
    (processGithubTable [] (.elem 1 "table" "" [] []
      [.elem 2 "tr" "" [] [] [.elem 3 "td" "" [] [] [.text "a"],
        .elem 4 "td" "" [] [] [.text "b"], .elem 5 "td" "" [] [] [.text "x"]],
       .elem 6 "tr" "" [] [] [.elem 7 "td" "" [] [] [.text "c"],
        .elem 8 "td" "" [] [] [.text "d"]]])).1 =
      "\n| a | b | x |\n|---|---|---|\n| c | d | |\n\n" :=
  ⟨by decide,
    (githubTable_column_padding _ (by decide)).2.1,
    by decide⟩

/-! Separator-row facts for the GitHub-style renderer. -/

/-- Absence from the set is what `psHas = false` means. -/
theorem psHas_eq_false {s : List Nat} {n : HNode} (h : n.eid ∉ s) : psHas s n = false := by
  simpa [psHas] using h

/-- Membership after the cell-adding fold, both directions. -/
theorem mem_foldl_psAdd_iff {x : Nat} :
    ∀ (cells : List HNode) (s : List Nat),
      (x ∈ cells.foldl psAdd s ↔ x ∈ cells.map HNode.eid ∨ x ∈ s) := by
  intro cells
  induction cells with
  | nil => intro s; simp
  | cons c cs ih =>
    intro s
    rw [List.foldl_cons, ih (psAdd s c), List.map_cons]
    constructor
    · rintro (h | h)
      · exact Or.inl (List.mem_cons_of_mem _ h)
      · have h' : x = c.eid ∨ x ∈ s := by simpa [psAdd] using h
        rcases h' with h1 | h1
        · exact Or.inl (by simp [h1])
        · exact Or.inr h1
    · rintro (h | h)
      · rcases List.mem_cons.mp h with h1 | h1
        · exact Or.inr (by simp [psAdd, h1])
        · exact Or.inl h1
      · exact Or.inr (by simp [psAdd, h])

/-- When no row or cell of the table is already processed and all their
identities are distinct, the GitHub-row loop skips nothing: the header flags
of the emitted rows are exactly `githubHeaderFlags`. -/
theorem githubRowsFold_no_skip (maxCells : Nat) :
    ∀ (rows : List HNode) (s : List Nat) (idx : Nat),
      (rows.flatMap rowTouches).Nodup →
      (∀ x ∈ rows.flatMap rowTouches, x ∉ s) →
      ((githubRowsFold maxCells s idx rows).1.filterMap id).map Prod.snd =
        githubHeaderFlags idx rows := by
  intro rows
  induction rows with
  | nil => intro s idx _ _; simp [githubRowsFold, githubHeaderFlags]
  | cons r rs ih =>
    intro s idx hNodup hDisj
    have hflat : (r :: rs).flatMap rowTouches = rowTouches r ++ rs.flatMap rowTouches := by
      simp
    rw [hflat] at hNodup hDisj
    have hr : psHas s r = false := by
      apply psHas_eq_false
      apply hDisj
      simp [rowTouches]
    have hNodup2 : (rs.flatMap rowTouches).Nodup :=
      (List.nodup_append.mp hNodup).2.1
    have hDisjTouch : ∀ x ∈ rs.flatMap rowTouches, x ∉ rowTouches r := by
      intro x hx hmem
      exact (List.nodup_append.mp hNodup).2.2 hmem hx
    have hDisj2 : ∀ x ∈ rs.flatMap rowTouches,
        x ∉ (rowCells r).foldl psAdd (psAdd s r) := by
      intro x hx hmem
      rcases (mem_foldl_psAdd_iff (rowCells r) (psAdd s r)).mp hmem with hcell | hrest
      · exact hDisjTouch x hx (by
          rw [rowTouches]
          exact List.mem_cons_of_mem _ hcell)
      · have hrest' : x ∈ r.eid :: s := hrest
        rcases List.mem_cons.mp hrest' with h1 | h1
        · exact hDisjTouch x hx (by simp [rowTouches, h1])
        · exact hDisj x (List.mem_append_right _ hx) h1
    simp only [githubRowsFold, hr, Bool.false_eq_true, if_false,
      githubHeaderFlags]
    rcases hf : githubRowsFold maxCells ((rowCells r).foldl psAdd (psAdd s r)) (idx + 1) rs
      with ⟨outs, s'⟩
    have hih := ih ((rowCells r).foldl psAdd (psAdd s r)) (idx + 1) hNodup2 hDisj2
    rw [hf] at hih
    simpa using hih

/-- Past the first row, rows without a `th` cell carry a `false` flag. -/
theorem githubHeaderFlags_no_th :
    ∀ (rows : List HNode) (idx : Nat), idx ≠ 0 →
      (∀ r ∈ rows, (qsFirst (fun d => d.tag = "th") r).isSome = false) →
      githubHeaderFlags idx rows = List.replicate rows.length false := by
  intro rows
  induction rows with
  | nil => intro idx _ _; simp [githubHeaderFlags]
  | cons r rs ih =>
    intro idx hidx h
    rw [githubHeaderFlags, ih (idx + 1) (by omega) fun q hq => h q (by simp [hq])]
    have h0 : (decide (idx = 0) || (qsFirst (fun d => d.tag = "th") r).isSome) = false := by
      rw [h r (by simp), decide_eq_false hidx]
      rfl
    rw [h0]
    simp [List.replicate_succ]

/-- C5 counterexample: in a Standard table whose second row holds `th`
cells, the renderer emits a separator row after the first row *and* after
the second: two separator rows, not exactly one. -/
theorem githubSeparator_cex :
    (processGithubTable [] (.elem 1 "table" "" [] []
      [.elem 2 "tr" "" [] [] [.elem 3 "td" "" [] [] [.text "a"],
        .elem 4 "td" "" [] [] [.text "b"]],
       .elem 5 "tr" "" [] [] [.elem 6 "th" "" [] [] [.text "c"],
        .elem 7 "th" "" [] [] [.text "d"]]])).1 =
      "\n| a | b |\n|---|---|\n| c | d |\n|---|---|\n\n" ∧
    (((githubRowsFold (githubMaxCells (tableRows (.elem 1 "table" "" [] []
      [.elem 2 "tr" "" [] [] [.elem 3 "td" "" [] [] [.text "a"],
        .elem 4 "td" "" [] [] [.text "b"]],
       .elem 5 "tr" "" [] [] [.elem 6 "th" "" [] [] [.text "c"],
        .elem 7 "th" "" [] [] [.text "d"]]]))) [] 0 (tableRows (.elem 1 "table" "" [] []
      [.elem 2 "tr" "" [] [] [.elem 3 "td" "" [] [] [.text "a"],
        .elem 4 "td" "" [] [] [.text "b"]],
       .elem 5 "tr" "" [] [] [.elem 6 "th" "" [] [] [.text "c"],
        .elem 7 "th" "" [] [] [.text "d"]]]))).1.filterMap id).map Prod.snd).count true
      = 2 ∧
    ¬ ((((githubRowsFold (githubMaxCells (tableRows (.elem 1 "table" "" [] []
      [.elem 2 "tr" "" [] [] [.elem 3 "td" "" [] [] [.text "a"],
        .elem 4 "td" "" [] [] [.text "b"]],
       .elem 5 "tr" "" [] [] [.elem 6 "th" "" [] [] [.text "c"],
        .elem 7 "th" "" [] [] [.text "d"]]]))) [] 0 (tableRows (.elem 1 "table" "" [] []
      [.elem 2 "tr" "" [] [] [.elem 3 "td" "" [] [] [.text "a"],
        .elem 4 "td" "" [] [] [.text "b"]],
       .elem 5 "tr" "" [] [] [.elem 6 "th" "" [] [] [.text "c"],
        .elem 7 "th" "" [] [] [.text "d"]]]))).1.filterMap id).map Prod.snd).count true
      = 1) := by
  refine ⟨?_, ?_, ?_⟩ <;> decide

/-- C5 amended: the renderer appends a separator row after the first row and
after every row containing a `th` cell; when no row beyond the first holds a
`th` cell (and nothing was pre-processed), the emitted separator flags are
`true` for the first row and `false` for every other, i.e. exactly one
separator row is emitted, immediately after the first row. -/
theorem githubTable_single_separator (s : List Nat) (t : HNode)
    (h0 : (tableRows t).length ≠ 0)
    (h1 : githubMaxCells (tableRows t) ≠ 0)
    (hNodup : ((tableRows t).flatMap rowTouches).Nodup)
    (hDisj : ∀ x ∈ (tableRows t).flatMap rowTouches, x ∉ s)
    (hTh : ∀ r ∈ (tableRows t).tail, (qsFirst (fun d => d.tag = "th") r).isSome = false) :
    ((githubRowsFold (githubMaxCells (tableRows t)) s 0 (tableRows t)).1.filterMap
        id).map Prod.snd =
      true :: List.replicate ((tableRows t).length - 1) false ∧
    (processGithubTable s t).1 =
      "\n" ++ String.join
        (((githubRowsFold (githubMaxCells (tableRows t)) s 0 (tableRows t)).1).map fun o =>
          match o with
          | none => ""
          | some lineHdr => lineHdr.1 ++ "\n" ++
              (if lineHdr.2 then githubSepLine (githubMaxCells (tableRows t)) else "")) ++
        "\n" := by
  constructor
  · rw [githubRowsFold_no_skip _ _ _ _ hNodup hDisj]
    rcases hrows : tableRows t with _ | ⟨r0, rs⟩
    · rw [hrows] at h0
      simp at h0
    · rw [hrows] at hTh
      rw [githubHeaderFlags, githubHeaderFlags_no_th rs 1 (by omega) (by simpa using hTh)]
      simp
  · rcases hf : githubRowsFold (githubMaxCells (tableRows t)) s 0 (tableRows t)
      with ⟨outs, s'⟩
    simp [processGithubTable, h0, h1, hf]

/-- Witness for the amended C5: a fresh two-row table without `th` cells has
flags `[true, false]` — one separator, after the first row — and its full
rendering shows the single separator line. -/
theorem githubTable_single_separator_witness :
    ((githubRowsFold (githubMaxCells (tableRows (.elem 1 "table" "" [] []
      [.elem 2 "tr" "" [] [] [.elem 3 "td" "" [] [] [.text "a"],
        .elem 4 "td" "" [] [] [.text "b"]],
       .elem 5 "tr" "" [] [] [.elem 6 "td" "" [] [] [.text "c"],
        .elem 7 "td" "" [] [] [.text "d"]]]))) [] 0
        (tableRows (.elem 1 "table" "" [] []
      [.elem 2 "tr" "" [] [] [.elem 3 "td" "" [] [] [.text "a"],
        .elem 4 "td" "" [] [] [.text "b"]],
       .elem 5 "tr" "" [] [] [.elem 6 "td" "" [] [] [.text "c"],
        .elem 7 "td" "" [] [] [.text "d"]]]))).1.filterMap id).map Prod.snd =
      true :: List.replicate 1 false :=
  (githubTable_single_separator [] (.elem 1 "table" "" [] []
      [.elem 2 "tr" "" [] [] [.elem 3 "td" "" [] [] [.text "a"],
        .elem 4 "td" "" [] [] [.text "b"]],
       .elem 5 "tr" "" [] [] [.elem 6 "td" "" [] [] [.text "c"],
        .elem 7 "td" "" [] [] [.text "d"]]])
    (by decide) (by decide) (by decide) (by decide) (by decide)).1
